import Mathlib

set_option autoImplicit false

/-!
# Module load and dependency resolution of converge

A shallow embedding of `load/dependencyresolver.go`, `load/nodes.go`,
`load/resource.go`, `resource/resource.go` and `resource/group/group.go`:
Go strings are `String`, Go errors are `GoError` (`GroupError` in package
group), a `[]string` is a `Slice` (which keeps the difference between the nil
slice and an empty one), the graph is a list of vertices in insertion order
with a list of edges, and a run of `Check` or `Apply` is a `Run`, which holds
the returned pair, or nothing after a nil pointer dereference, and the
changing calls made.
-/

namespace Converge

/-! ## Go values -/

/-- Go error values as the load package observes them: the sentinel
`parse.ErrNotFound`, which `getDepends` compares against, and every other
error, identified by its message. A nil error is `none : Option GoError`. -/
inductive GoError where
  | ErrNotFound
  | message (msg : String)
deriving DecidableEq, Repr

/-- A Go `[]string`. `nil` is the nil slice, `mk xs` a non-nil slice holding `xs`. -/
inductive Slice where
  | nil
  | mk (elems : List String)
deriving DecidableEq, Repr

/-- The elements of a slice, as `range` sees them. -/
def Slice.toList : Slice → List String
  | Slice.nil => []
  | Slice.mk xs => xs

/-- Go `append(s, x)`. -/
def Slice.push (s : Slice) (x : String) : Slice :=
  Slice.mk (s.toList ++ [x])

/-- Repeated `append`, one call per element of `xs`; appending nothing leaves
a nil slice nil. -/
def Slice.appendAll : Slice → List String → Slice
  | s, [] => s
  | s, x :: xs => Slice.appendAll (s.push x) xs

/-- The loop `for idx, val := range out { out[idx] = f val }`. -/
def Slice.mapInPlace (f : String → String) : Slice → Slice
  | Slice.nil => Slice.nil
  | Slice.mk xs => Slice.mk (xs.map f)

/-! ## Parse nodes and the template library -/

/-- The view of `*parse.Node` that the load package uses. `str` is the result
of `node.String()`, `GetStringSlice` and `GetStrings` are the accessors of the
same name (an `Except.error` is a non-nil `err`). -/
structure Node where
  Kind : String
  str : String
  IsModule : Bool
  Source : String
  GetStringSlice : String → Except GoError Slice
  GetStrings : Except GoError (List String)

/-- The template library as seen by dependency analysis. `run fn s` stands for
`template.New("DependencyTemplate").Funcs(language.Funcs).Parse(s)` followed by
`tmpl.Execute`, where `language` is `extensions.DefaultLanguage()` with `fn`
rebound: either the parse error, or the calls of `fn` that executing the
template makes, each given by its first argument, in call order (an execution
error only ends the execution, its value is dropped by the caller). What a
call of `fn` does with its argument is `RememberCalls`. -/
structure TemplateEngine where
  run : String → String → Except GoError (List String)

/-- Modelled from the spec: `extensions.RememberCalls(list, 0)` is not part of
the sources at hand. The function it returns purely records its first string
argument: a call with first argument `name` appends `name` to `*list`, whatever
the list already holds, and has no other effect. -/
def RememberCalls (list : Slice) (name : String) : Slice :=
  list.push name

/-- Modelled from the spec: the constant `extensions.RefFuncName` is not part of
the sources at hand; the end-to-end scenario of the spec calls the ref-function
`lookup`. It only selects which calls the template engine records. -/
def RefFuncName : String := "lookup"

/-! ## Identifiers -/

/-- Characters before the last slash (nothing when there is no slash). -/
def parentChars : List Char → List Char
  | [] => []
  | c :: cs => if '/' ∈ cs then c :: parentChars cs else []

/-- Modelled from the spec: `parent(id)` is the part of `id` up to its last
slash (package graph is not part of the sources at hand). -/
def ParentID (id : String) : String :=
  String.mk (parentChars id.data)

/-- Modelled from the spec: the ID of the node called `name` under `parent` is
`parent + "/" + name` (the helper `ID` is not part of the sources at hand). -/
def ID (parent name : String) : String :=
  parent ++ "/" ++ name

/-- Modelled from the spec: `siblingID(base, ref) = parent(base) + "/" + ref`
(package graph is not part of the sources at hand). -/
def SiblingID (id sibling : String) : String :=
  ID (ParentID id) sibling

/-! ## The graph -/

/-- A `*shell.Preparer`, the resource descriptor of a task. The type is not
part of the sources at hand; a value of it is identified by the fields that
`hcl.DecodeObject` filled in. -/
structure ShellPreparer where
  fields : List (String × String)
deriving DecidableEq, Repr

/-- A vertex payload (`interface{}` in the source): nil for the root, a parse
node, a shell preparer, or a value of some other dynamic type. -/
inductive Value where
  | nil
  | node (n : Node)
  | preparer (p : ShellPreparer)
  | other (typ : String)

/-- Modelled from the spec: package graph is not part of the sources at hand.
Vertices are kept in insertion order with their payload, edges in insertion
order; both are sets (no ID and no edge occurs twice). -/
structure Graph where
  vertices : List (String × Value)
  edges : List (String × String)

/-- The vertex IDs of a graph, in insertion order. -/
def Graph.ids (g : Graph) : List String :=
  g.vertices.map Prod.fst

/-- Modelled from the spec: the empty graph of `graph.New()`. -/
def Graph.New : Graph :=
  { vertices := [], edges := [] }

/-- Modelled from the spec: whether `id` is a vertex. -/
def Graph.Contains (g : Graph) (id : String) : Bool :=
  decide (id ∈ g.ids)

/-- Modelled from the spec: `Add` refuses a duplicate ID (the graph is left as
it was), otherwise the vertex is appended. The sources at hand call `Add` as a
statement, so nothing it might report reaches its caller. -/
def Graph.Add (g : Graph) (id : String) (v : Value) : Graph :=
  if g.Contains id then g else { g with vertices := g.vertices ++ [(id, v)] }

/-- Payload lookup in a vertex list. -/
def lookupValue (id : String) : List (String × Value) → Value
  | [] => Value.nil
  | (k, v) :: rest => if k = id then v else lookupValue id rest

/-- Modelled from the spec: the payload stored at `id` (nil when absent). -/
def Graph.Get (g : Graph) (id : String) : Value :=
  lookupValue id g.vertices

/-- Modelled from the spec: `Connect` adds the edge `src → dst`; re-adding an
existing edge is a no-op; the endpoints need not exist. -/
def Graph.Connect (g : Graph) (src dst : String) : Graph :=
  if (src, dst) ∈ g.edges then g else { g with edges := g.edges ++ [(src, dst)] }

/-- The walk of `Transform`: the callback runs once per vertex on the copy. -/
def Graph.walk (cb : String → Graph → Except GoError Graph) :
    List String → Graph → Except GoError Graph
  | [], out => Except.ok out
  | id :: rest, out =>
    match cb id out with
    | Except.error err => Except.error err
    | Except.ok out2 => Graph.walk cb rest out2

/-- Modelled from the spec: `Transform` copies the graph and visits every vertex
exactly once, handing the callback the vertex ID and the copy; the first
callback error aborts. The visiting order is insertion order here (the spec
leaves it open). -/
def Graph.Transform (g : Graph) (cb : String → Graph → Except GoError Graph) :
    Except GoError Graph :=
  Graph.walk cb g.ids g

/-! ## Greedy resolution of a dotted call path -/

/-- Every way to cut `cs` at one of its dots, as (before, after), shortest
first. -/
def dotCuts : List Char → List (List Char × List Char)
  | [] => []
  | c :: cs =>
    let longer := (dotCuts cs).map (fun p => (c :: p.1, p.2))
    if c = '.' then ([], cs) :: longer else longer

/-- The dotted stems of `s` with their remainders, longest stem first: `s`
itself, then `s` cut at its last dot, and so on down to its first dot. -/
def dottedStems (s : String) : List (String × String) :=
  (s, "") :: (dotCuts s.data).reverse.map (fun p => (String.mk p.1, String.mk p.2))

/-- Modelled from the spec: greedy resolution of a dotted call path (package
preprocessor is not part of the sources at hand). The longest dotted stem of
`s` that is a vertex of `g` is returned with the rest of the path; `none` is
the `found = false` outcome. -/
def VertexSplit (g : Graph) (s : String) : Option (String × String) :=
  (dottedStems s).find? (fun p => g.Contains p.1)

/-- Go `s[n:]` on a string whose first `n` bytes are one-byte characters. -/
def sliceFrom (n : Nat) (s : String) : String :=
  String.mk (s.data.drop n)

/-! ## load/dependencyresolver.go -/

/-- Source `getDepends`. -/
def getDepends (node : Node) : Slice × Option GoError :=
  match node.GetStringSlice "depends" with
  | Except.error GoError.ErrNotFound => (Slice.mk [], none)
  | Except.ok deps => (deps, none)
  | Except.error err => (Slice.nil, some err)

/-- The loop `for _, s := range strings` shared by `getParams` and `getXrefs`:
each string is parsed and executed with `fn` bound to `RememberCalls(&list, 0)`,
so every call the execution makes goes through `RememberCalls`; a parse error
stops the loop and is handed back with the list as it stands. -/
def recordCalls (T : TemplateEngine) (fn : String) :
    List String → Slice → Slice × Option GoError
  | [], list => (list, none)
  | s :: rest, list =>
    match T.run fn s with
    | Except.error tmplErr => (list, some tmplErr)
    | Except.ok calls => recordCalls T fn rest (calls.foldl RememberCalls list)

/-- Source `getParams`. -/
def getParams (T : TemplateEngine) (node : Node) : Slice × Option GoError :=
  match node.GetStrings with
  | Except.error err => (Slice.nil, some err)
  | Except.ok strings =>
    match recordCalls T "param" strings Slice.nil with
    | (out, some tmplErr) => (out, some tmplErr)
    | (out, none) => (out.mapInPlace (fun val => "param." ++ val), none)

/-- The loop `for _, call := range calls` of `getXrefs`; `nodeRefs` is the set
of vertices already emitted. -/
def resolveCalls (g : Graph) : List String → List String → Slice → Slice × Option GoError
  | [], _, out => (out, none)
  | call :: rest, nodeRefs, out =>
    match VertexSplit g ("root/" ++ call) with
    | none => (Slice.mk [], some (GoError.message ("unresolvable call to " ++ call)))
    | some (vertex, _) =>
      let vertex := sliceFrom "root/".length vertex
      if vertex ∈ nodeRefs then resolveCalls g rest nodeRefs out
      else resolveCalls g rest (vertex :: nodeRefs) (out.push vertex)

/-- Source `getXrefs`. -/
def getXrefs (T : TemplateEngine) (g : Graph) (node : Node) : Slice × Option GoError :=
  match node.GetStrings with
  | Except.error err => (Slice.nil, some err)
  | Except.ok strings =>
    match recordCalls T RefFuncName strings Slice.nil with
    | (_, some tmplErr) => (Slice.nil, some tmplErr)
    | (calls, none) => resolveCalls g calls.toList [] Slice.nil

/-- The loop `for _, dep := range deps { out.Connect(id, graph.SiblingID(id, dep)) }`. -/
def connectDeps (id : String) : List String → Graph → Graph
  | [], out => out
  | dep :: deps, out => connectDeps id deps (out.Connect id (SiblingID id dep))

/-- The loop `for _, source := range depGenerators`. -/
def runGenerators (id : String) (node : Node) :
    List (Node → Slice × Option GoError) → Graph → Except GoError Graph
  | [], out => Except.ok out
  | source :: rest, out =>
    match source node with
    | (_, some err) => Except.error err
    | (deps, none) => runGenerators id node rest (connectDeps id deps.toList out)

/-- The callback that `ResolveDependencies` hands to `Transform`. -/
def resolveVertex (T : TemplateEngine) (g : Graph) (id : String) (out : Graph) :
    Except GoError Graph :=
  if id = "root" then Except.ok out
  else
    match out.Get id with
    | Value.node node =>
      runGenerators id node [getDepends, getParams T, getXrefs T g] out
    | _ =>
      Except.error (GoError.message
        "ResolveDependencies can only be used on Graphs of *parse.Node")

/-- Source `ResolveDependencies`. -/
def ResolveDependencies (T : TemplateEngine) (g : Graph) : Except GoError Graph :=
  g.Transform (resolveVertex T g)

/-! ## load/nodes.go -/

/-- Source `source`: a queued module, the vertex it hangs under and where to
fetch it from. -/
structure source where
  Parent : String
  Source : String
deriving DecidableEq, Repr

/-- The collaborators of `Nodes`: `fetch.ResolveInContext`, `fetch.Any`,
`parse.Parse` (an `Except.error` is a non-nil `err`) and the `Validate` method
of the graph, none of which is part of the sources at hand. -/
structure World where
  ResolveInContext : String → String → Except GoError String
  Any : String → Except GoError String
  Parse : String → Except GoError (List Node)
  Validate : Graph → Option GoError

/-- The loop `for _, resource := range resources` of `Nodes`. -/
def addResources (Parent : String) : List Node → List source → Graph → List source × Graph
  | [], toLoad, out => (toLoad, out)
  | resource :: rest, toLoad, out =>
    let newID := ID Parent resource.str
    let out1 := out.Add newID (Value.node resource)
    let out2 := out1.Connect Parent newID
    let toLoad2 :=
      if resource.IsModule then toLoad ++ [{ Parent := newID, Source := resource.Source }]
      else toLoad
    addResources Parent rest toLoad2 out2

/-- One pass through the body of `for len(toLoad) > 0`, after `current` was
taken off the queue: the new queue and graph, or the error `Nodes` returns. -/
def NodesStep (w : World) (root : String) (current : source) (toLoad : List source)
    (out : Graph) : Except GoError (List source × Graph) :=
  match w.ResolveInContext current.Source root with
  | Except.error err => Except.error err
  | Except.ok url =>
    match w.Any url with
    | Except.error err => Except.error err
    | Except.ok content =>
      match w.Parse content with
      | Except.error err => Except.error err
      | Except.ok resources => Except.ok (addResources current.Parent resources toLoad out)

/-- The loop `for len(toLoad) > 0` followed by `return out, out.Validate()`.
The result is the pair `Nodes` returns (`none` in the first place is the nil
graph); the outer `none` means the fuel ran out before the queue was empty. -/
def NodesLoop (w : World) (root : String) :
    Nat → List source → Graph → Option (Option Graph × Option GoError)
  | _, [], out => some (some out, w.Validate out)
  | 0, _ :: _, _ => none
  | fuel + 1, current :: toLoad, out =>
    match NodesStep w root current toLoad out with
    | Except.error err => some (none, some err)
    | Except.ok (toLoad2, out2) => NodesLoop w root fuel toLoad2 out2

/-- The graph `Nodes` starts from: `graph.New()` with the vertex `root` added. -/
def rootGraph : Graph :=
  Graph.New.Add "root" Value.nil

/-- Source `Nodes`, with fuel for the queue loop. -/
def Nodes (w : World) (root : String) (fuel : Nat) : Option (Option Graph × Option GoError) :=
  NodesLoop w root fuel [{ Parent := "root", Source := root }] rootGraph

/-- The entries the queue loop takes off the queue, in the order it does. -/
def fetchTrace (w : World) (root : String) : Nat → List source → Graph → List source
  | _, [], _ => []
  | 0, _ :: _, _ => []
  | fuel + 1, current :: toLoad, out =>
    current ::
      match NodesStep w root current toLoad out with
      | Except.error _ => []
      | Except.ok (toLoad2, out2) => fetchTrace w root fuel toLoad2 out2

/-- The states the queue loop of `Nodes` passes through at the top of an
iteration. -/
inductive Iterates (w : World) (root : String) : List source → Graph → Prop where
  | start : Iterates w root [{ Parent := "root", Source := root }] rootGraph
  | next {current : source} {toLoad toLoad2 : List source} {out out2 : Graph} :
      Iterates w root (current :: toLoad) out →
      NodesStep w root current toLoad out = Except.ok (toLoad2, out2) →
      Iterates w root toLoad2 out2

/-! ## Vocabulary of the specification -/

/-- Duplicates removed, first occurrences kept in their order. -/
def firstSeen {α : Type} [DecidableEq α] : List α → List α
  | [] => []
  | x :: xs => x :: (firstSeen xs).filter (fun y => decide (y ≠ x))

/-- The arguments passed to `fn` across the strings, in call order (a string
that does not parse records nothing). -/
def recorded (T : TemplateEngine) (fn : String) (strings : List String) : List String :=
  strings.flatMap (fun s =>
    match T.run fn s with
    | Except.ok calls => calls
    | Except.error _ => [])

/-- Whether `b` can be reached from `a` along the edges. -/
def Reaches (edges : List (String × String)) (a b : String) : Prop :=
  Relation.ReflTransGen (fun x y => (x, y) ∈ edges) a b

/-- What the loader maintains: one vertex `root`, every queued parent already
in the graph, every vertex reachable from `root`. -/
def LoaderInv (toLoad : List source) (out : Graph) : Prop :=
  out.ids.count "root" = 1 ∧
  (∀ s ∈ toLoad, s.Parent ∈ out.ids) ∧
  (∀ v ∈ out.ids, Reaches out.edges "root" v)

/-- Resolving, fetching and parsing one module source. -/
def loadModule (w : World) (root : String) (src : String) : Except GoError (List Node) :=
  match w.ResolveInContext src root with
  | Except.error err => Except.error err
  | Except.ok url =>
    match w.Any url with
    | Except.error err => Except.error err
    | Except.ok content => w.Parse content

/-- The nodes a module source parses to (none when loading it fails). -/
def nodesOf (w : World) (root : String) (src : String) : List Node :=
  match loadModule w root src with
  | Except.ok nodes => nodes
  | Except.error _ => []

/-- The module tree below `src` has depth at most `d` and every fetch and parse
in it succeeds. -/
def finiteDepth (w : World) (root : String) : Nat → String → Bool
  | 0, _ => false
  | d + 1, src =>
    match loadModule w root src with
    | Except.error _ => false
    | Except.ok nodes => nodes.all (fun n => !n.IsModule || finiteDepth w root d n.Source)

/-- The queue entries a fetched module gives rise to: one per node with
`IsModule` true, in declared order. -/
def childModules (w : World) (root : String) (s : source) : List source :=
  ((nodesOf w root s.Source).filter (fun n => n.IsModule)).map
    (fun n => { Parent := ID s.Parent n.str, Source := n.Source })

/-- The vertex IDs of the nodes of a fetched module, in declared order. -/
def moduleIDs (w : World) (root : String) (s : source) : List String :=
  (nodesOf w root s.Source).map (fun n => ID s.Parent n.str)

/-- The modules of the tree: the root module and every module node of a
module of the tree. -/
inductive Discovered (w : World) (root : String) : source → Prop where
  | top : Discovered w root { Parent := "root", Source := root }
  | child {s : source} {n : Node} :
      Discovered w root s → n ∈ nodesOf w root s.Source → n.IsModule = true →
      Discovered w root { Parent := ID s.Parent n.str, Source := n.Source }

/-- The node `n` is parsed under the parent vertex `p` somewhere in the tree. -/
def Parsed (w : World) (root : String) (p : String) (n : Node) : Prop :=
  ∃ s, Discovered w root s ∧ s.Parent = p ∧ n ∈ nodesOf w root s.Source

/-- The edges the loader adds for a fetched module, in declared order. -/
def moduleEdges (w : World) (root : String) (s : source) : List (String × String) :=
  (nodesOf w root s.Source).map (fun n => (s.Parent, ID s.Parent n.str))

/-- What holds of the loader once the entries `done` were fetched, with `toLoad`
still queued: the queue is first-in first-out, and the graph holds the nodes of
the fetched modules in the order they were added. -/
def LoaderTrace (w : World) (root : String) (done toLoad : List source) (out : Graph) : Prop :=
  done ++ toLoad =
    { Parent := "root", Source := root } :: done.flatMap (childModules w root) ∧
  out.ids = firstSeen ("root" :: done.flatMap (moduleIDs w root)) ∧
  out.edges = firstSeen (done.flatMap (moduleEdges w root)) ∧
  (∀ s ∈ done ++ toLoad, Discovered w root s)

/-- The vertex a ref-function argument resolves to, with the leading `root/`
removed (empty when it does not resolve). -/
def xrefTarget (g : Graph) (call : String) : String :=
  match VertexSplit g ("root/" ++ call) with
  | some (vertex, _) => sliceFrom "root/".length vertex
  | none => ""

/-- Whether the string parses as a template when `fn` is the recording function. -/
def parses (T : TemplateEngine) (fn s : String) : Bool :=
  match T.run fn s with
  | Except.ok _ => true
  | Except.error _ => false

/-! ## The validator -/

/-- The targets of the edges leaving `v`. -/
def successors (edges : List (String × String)) (v : String) : List String :=
  (edges.filter (fun e => decide (e.1 = v))).map Prod.snd

/-- Depth-first traversal with a grey path and a black set; an edge into the
grey path is a cycle. -/
def dfsVisit (edges : List (String × String)) :
    Nat → List String → List String → String → Except GoError (List String)
  | 0, _, black, _ => Except.ok black
  | fuel + 1, grey, black, v =>
    if v ∈ grey then Except.error (GoError.message ("cycle through " ++ v))
    else if v ∈ black then Except.ok black
    else
      match (successors edges v).foldlM (fun b c => dfsVisit edges fuel (v :: grey) b c) black with
      | Except.error err => Except.error err
      | Except.ok b => Except.ok (v :: b)

/-- Modelled from the spec: the validator (the `Validate` method of the graph
is not part of the sources at hand) rejects an edge with a missing endpoint
and a cycle found by depth-first traversal from `root`. -/
def specValidate (g : Graph) : Option GoError :=
  match g.edges.find? (fun e => !(g.Contains e.1 && g.Contains e.2)) with
  | some e => some (GoError.message ("dangling edge " ++ e.1 ++ " -> " ++ e.2))
  | none =>
    match dfsVisit g.edges (g.ids.length + 1) [] [] "root" with
    | Except.error err => some err
    | Except.ok _ => none

/-! ## Scenarios -/

/-- A node of the given kind and name with an explicit `depends` lookup result
and the given string fields. -/
def demoNode (kind name : String) (depends : Except GoError Slice) (strings : List String) :
    Node :=
  { Kind := kind
    str := kind ++ "." ++ name
    IsModule := false
    Source := ""
    GetStringSlice := fun field =>
      if field = "depends" then depends else Except.error GoError.ErrNotFound
    GetStrings := Except.ok strings }

/-- A task without a `depends` field. -/
def taskNode (name : String) (strings : List String) : Node :=
  demoNode "task" name (Except.error GoError.ErrNotFound) strings

/-- A module node that includes the module at `src`. -/
def moduleNode (name src : String) : Node :=
  { demoNode "module" name (Except.error GoError.ErrNotFound) [] with
    IsModule := true
    Source := src }

/-- The calls that executing the template strings of the scenarios makes: the
string, the called function, the first argument of each call in order. A
template with two actions that call `param "x"` calls `param` twice. -/
def demoCalls : List (String × String × List String) :=
  [("echo \x7b\x7blookup \"task.a.status\"\x7d\x7d", "lookup", ["task.a.status"]),
   ("\x7b\x7blookup \"task.a.status\"\x7d\x7d \x7b\x7blookup \"task.a.output\"\x7d\x7d", "lookup",
      ["task.a.status", "task.a.output"]),
   ("echo \x7b\x7blookup \"task.nonexistent\"\x7d\x7d", "lookup", ["task.nonexistent"]),
   ("echo \x7b\x7bparam \"name\"\x7d\x7d", "param", ["name"]),
   ("\x7b\x7bparam \"x\"\x7d\x7d and \x7b\x7bparam \"x\"\x7d\x7d", "param", ["x", "x"])]

/-- The template engine of the scenarios: an unclosed action does not parse,
every other string parses and makes the calls that `demoCalls` lists for it. -/
def demoEngine : TemplateEngine :=
  { run := fun fn s =>
      if s = "\x7b\x7b" then Except.error (GoError.message "unclosed action")
      else Except.ok
        ((demoCalls.filter (fun e => decide (e.1 = s) && decide (e.2.1 = fn))).flatMap
          (fun e => e.2.2)) }

/-- Task `b` inside module `m` refers to the top-level task `a`. -/
def nestedGraph : Graph :=
  { vertices :=
      [("root", Value.nil),
       ("root/task.a", Value.node (taskNode "a" ["true"])),
       ("root/module.m", Value.node (moduleNode "m" "m.hcl")),
       ("root/module.m/task.b",
          Value.node (taskNode "b" ["echo \x7b\x7blookup \"task.a.status\"\x7d\x7d"]))]
    edges :=
      [("root", "root/task.a"), ("root", "root/module.m"),
       ("root/module.m", "root/module.m/task.b")] }

/-- A task whose one string field calls `param "x"` twice. -/
def twiceNode : Node :=
  taskNode "twice" ["\x7b\x7bparam \"x\"\x7d\x7d and \x7b\x7bparam \"x\"\x7d\x7d"]

/-- A task that refers to two fields of task `a`. -/
def twoRefsNode : Node :=
  taskNode "b"
    ["\x7b\x7blookup \"task.a.status\"\x7d\x7d \x7b\x7blookup \"task.a.output\"\x7d\x7d"]

/-- A task that refers to a task that does not exist. -/
def danglingNode : Node :=
  taskNode "b" ["echo \x7b\x7blookup \"task.nonexistent\"\x7d\x7d"]

/-- A task with explicit dependencies and a parameter reference. -/
def greetNode : Node :=
  demoNode "task" "greet" (Except.ok (Slice.mk ["task.a"]))
    ["echo \x7b\x7bparam \"name\"\x7d\x7d"]

/-- The top-level graph of the scenarios: a parameter and the tasks `a`, `b`
and `greet` under `root`. -/
def flatGraph : Graph :=
  { vertices :=
      [("root", Value.nil),
       ("root/param.name", Value.node (demoNode "param" "name" (Except.error GoError.ErrNotFound) [])),
       ("root/task.a", Value.node (taskNode "a" ["true"])),
       ("root/task.b", Value.node twoRefsNode),
       ("root/task.greet", Value.node greetNode)]
    edges :=
      [("root", "root/param.name"), ("root", "root/task.a"), ("root", "root/task.b"),
       ("root", "root/task.greet")] }

/-- A world for the scenarios: a source resolves to itself, the listed files
can be fetched (the content stands for the file), every other fetch fails with
`connection refused`, and a file parses to its listed nodes. -/
def demoWorld (files : List (String × List Node)) : World :=
  { ResolveInContext := fun src _ => Except.ok src
    Any := fun url =>
      if files.any (fun f => decide (f.1 = url)) then Except.ok url
      else Except.error (GoError.message "connection refused")
    Parse := fun content =>
      match files.find? (fun f => decide (f.1 = content)) with
      | some f => Except.ok f.2
      | none => Except.error (GoError.message "parse error")
    Validate := specValidate }

/-- A root module that declares two tasks with the same name. -/
def dupWorld : World :=
  demoWorld [("main.hcl", [taskNode "a" ["true"], taskNode "a" ["false"]])]

/-- A world in which no module can be fetched. -/
def failWorld : World :=
  demoWorld []

/-- A root module with a task and a module `m`, which holds one task. -/
def treeWorld : World :=
  demoWorld
    [("main.hcl", [taskNode "hello" ["true"], moduleNode "m" "m.hcl"]),
     ("m.hcl", [taskNode "inner" ["true"]])]

/-! ## load/resource.go -/

/-- The libraries `SetResources` calls. `DecodeObject node` stands for
`hcl.DecodeObject(dest, node.ObjectItem)` on a fresh `shell.Preparer`: the
decoding error, or the preparer as filled in. `quote` is the `%q` verb of
`fmt.Errorf`. -/
structure Hydrator where
  DecodeObject : Node → Except GoError ShellPreparer
  quote : String → String

/-- The callback that `SetResources` hands to `Transform`: for the vertex `id`
with payload `v` and edge list `edges`, the new payload, the new edge list and
the error. -/
def SetResourcesStep (H : Hydrator) (id : String) (v : Value) (edges : List String) :
    Value × List String × Option GoError :=
  if id = "root" then (v, edges, none)
  else
    match v with
    | Value.node node =>
      if node.Kind = "task" then
        match H.DecodeObject node with
        | Except.error err => (v, edges, some err)
        | Except.ok dest => (Value.preparer dest, edges, none)
      else
        (v, edges, some (GoError.message
          (H.quote node.Kind ++ " is not a valid resource type in " ++ H.quote node.str)))
    | _ =>
      (v, edges, some (GoError.message
        "SetResources can only be used on Graphs of *parse.Node"))

/-- The walk of the payload-rewriting `Transform`: every vertex in turn is
handed to the callback with the targets of its edges. -/
def transformVertices (g : Graph)
    (cb : String → Value → List String → Value × List String × Option GoError) :
    List (String × Value) → Except GoError Graph
  | [] => Except.ok { vertices := [], edges := [] }
  | (id, v) :: rest =>
    match cb id v (successors g.edges id) with
    | (_, _, some err) => Except.error err
    | (v2, edges2, none) =>
      match transformVertices g cb rest with
      | Except.error err => Except.error err
      | Except.ok out =>
        Except.ok
          { vertices := (id, v2) :: out.vertices
            edges := edges2.map (fun dst => (id, dst)) ++ out.edges }

/-- Modelled from the spec: the `Transform` that `SetResources` uses (package
graph is not part of the sources at hand) visits every vertex once and
replaces its payload and its edges by what the callback returns; the first
callback error aborts. -/
def Graph.TransformPayloads (g : Graph)
    (cb : String → Value → List String → Value × List String × Option GoError) :
    Except GoError Graph :=
  transformVertices g cb g.vertices

/-- Source `SetResources`. -/
def SetResources (H : Hydrator) (g : Graph) : Except GoError Graph :=
  g.TransformPayloads (SetResourcesStep H)

/-! ## The template library, parse and execution apart -/

/-- The two calls of the template library that the resolver makes on a string
`s` when `fn` is the recording function: `Parse fn s` is the error of
`template.New(...).Funcs(language.Funcs).Parse(s)`, `Execute fn s` is what
`tmpl.Execute` does, the calls of `fn` (each given by its first argument) made
up to the end of the template or up to the execution error, and that error. -/
structure TemplateLibrary where
  Parse : String → String → Option GoError
  Execute : String → String → List String × Option GoError

/-- What the loop body of `getParams` and `getXrefs` observes of the library:
the parse error, or the calls made; `tmpl.Execute(...)` is called as a
statement, so the execution error is dropped. -/
def TemplateLibrary.toEngine (L : TemplateLibrary) : TemplateEngine :=
  { run := fun fn s =>
      match L.Parse fn s with
      | some tmplErr => Except.error tmplErr
      | none => Except.ok (L.Execute fn s).1 }

/-! ## resource/resource.go -/

/-- A Go value passed as `interface{}`, as `ResolveTask` tells them apart:
the nil interface; a task that is no `Tasker`; a `*TaskWrapper` pointing to a
wrapper around a `Task` value; a nil `*TaskWrapper`, which is not the nil
interface; another `Tasker` (which may be a `Task` as well) with the result
of its `GetTask`; a value that is neither `Tasker` nor `Task`. -/
inductive Obj where
  | nil
  | task (name : String)
  | wrapper (inner : Obj)
  | nilWrapper
  | tasker (isTask : Bool) (inner : Obj) (found : Bool)
  | other (typ : String)
deriving DecidableEq, Repr

/-- Whether the value implements `Tasker`, the outcome of `w.(Tasker)`; a
`*TaskWrapper` does, nil pointer or not. -/
def Obj.isTasker : Obj → Bool
  | Obj.wrapper _ => true
  | Obj.nilWrapper => true
  | Obj.tasker _ _ _ => true
  | _ => false

/-- Whether the value implements `Task`, the outcome of `w.(Task)`; a
`*TaskWrapper` does, through the embedded `Task`. -/
def Obj.isTask : Obj → Bool
  | Obj.task _ => true
  | Obj.wrapper _ => true
  | Obj.nilWrapper => true
  | Obj.tasker isTask _ _ => isTask
  | _ => false

/-- Source `GetTask`, called on a value that implements `Tasker`: a
`*TaskWrapper` returns `t.Task` and true, and `none` is the nil pointer
dereference of `t.Task` on a nil receiver. (On a value that is no `Tasker`
there is no such call; the function is `none` there as well.) -/
def Obj.GetTask : Obj → Option (Obj × Bool)
  | Obj.wrapper inner => some (inner, true)
  | Obj.tasker _ inner found => some (inner, found)
  | _ => none

/-- Source `WrapTask`: a pointer to a fresh wrapper, never nil. -/
def WrapTask (t : Obj) : Obj :=
  Obj.wrapper t

/-- What a call of `ResolveTask` ends in: the pair it returns, or a nil
pointer dereference. -/
inductive Unwrapped where
  | returned (task : Obj) (ok : Bool)
  | panicked
deriving DecidableEq, Repr

/-- Source `ResolveTask`; the recursion follows the layers of the value. A
nil `*TaskWrapper` is not `== nil` and is a `Tasker`, so its `GetTask` is
called. -/
def ResolveTask : Obj → Unwrapped
  | Obj.nil => Unwrapped.returned Obj.nil false
  | Obj.wrapper inner => ResolveTask inner
  | Obj.nilWrapper => Unwrapped.panicked
  | Obj.tasker _ inner found =>
    if found then ResolveTask inner else Unwrapped.returned Obj.nil false
  | Obj.task name => Unwrapped.returned (Obj.task name) true
  | Obj.other _ => Unwrapped.returned Obj.nil false

/-- The value `t` under `n` layers of `WrapTask`. -/
def wrapLayers : Nat → Obj → Obj
  | 0, t => t
  | n + 1, t => WrapTask (wrapLayers n t)

/-! ## resource/group/group.go -/

/-- Source `State`. -/
abbrev State := String

/-- Source `StatePresent`. -/
def StatePresent : State := "present"

/-- Source `StateAbsent`. -/
def StateAbsent : State := "absent"

/-- A `user.Group` of the Go library. -/
structure UserGroup where
  Gid : String
  Name : String
deriving DecidableEq, Repr

/-- The errors package group tells apart: its sentinel `ErrUnsupported`, the
`user.UnknownGroupError` and `user.UnknownGroupIdError` of the Go library, and
every other error, identified by its message. -/
inductive GroupError where
  | ErrUnsupported
  | UnknownGroupError (name : String)
  | UnknownGroupIdError (gid : String)
  | other (msg : String)
deriving DecidableEq, Repr

/-- Source `SystemUtils`; a lookup returns the group pointer (`none` is nil)
and the error. -/
structure SystemUtils where
  AddGroup : String → String → Option GroupError
  DelGroup : String → Option GroupError
  LookupGroup : String → Option UserGroup × Option GroupError
  LookupGroupID : String → Option UserGroup × Option GroupError

/-- Source `Group`. -/
structure Group where
  GID : String
  Name : String
  State : State
  system : SystemUtils

/-- Source `NewGroup`. -/
def NewGroup (system : SystemUtils) : Group :=
  { GID := "", Name := "", State := "", system := system }

/-- The levels of `resource.Status.WarningLevel` that package group assigns;
`level n` stands for the remaining constants of the type, which is not part of
the sources at hand. -/
inductive StatusLevel where
  | StatusNoChange
  | StatusWillChange
  | StatusFatal
  | level (n : Nat)
deriving DecidableEq, Repr

/-- The fields of `resource.Status` that package group touches (the type is
not part of the sources at hand); `Differences` holds the arguments of the
calls of `AddDifference`. -/
structure Status where
  WarningLevel : StatusLevel
  Output : List String
  WillChange : Bool
  Differences : List (String × String × String × String)
deriving DecidableEq, Repr

/-- The value of `&resource.Status{}`; `zero` is the zero value of the level
type. -/
def Status.empty (zero : StatusLevel) : Status :=
  { WarningLevel := zero, Output := [], WillChange := false, Differences := [] }

/-- A call that changes the system. -/
inductive SysCall where
  | AddGroup (name gid : String)
  | DelGroup (name : String)
deriving DecidableEq, Repr

/-- What a run of `Check` or `Apply` does: the pair it returns (`none` when
the run ends in a nil pointer dereference) and the changing calls it made. -/
structure Run where
  result : Option (Status × Option GroupError)
  calls : List SysCall
deriving DecidableEq, Repr

/-- The type assertion `nameErr.(user.UnknownGroupError)`. -/
def isUnknownGroupError : Option GroupError → Bool
  | some (GroupError.UnknownGroupError _) => true
  | _ => false

/-- The type assertion `gidErr.(user.UnknownGroupIdError)`. -/
def isUnknownGroupIdError : Option GroupError → Bool
  | some (GroupError.UnknownGroupIdError _) => true
  | _ => false

/-- The condition `groupByName != nil && groupByGid != nil &&
groupByName.Name != groupByGid.Name || groupByName.Gid != groupByGid.Gid`,
read as Go reads it: the conjunction first, and when it is false the
comparison of the `Gid` fields, which dereferences both pointers; `none` is
the nil pointer dereference. -/
def differentGroups (groupByName groupByGid : Option UserGroup) : Option Bool :=
  let conj : Bool :=
    match groupByName, groupByGid with
    | some n, some g => decide (n.Name ≠ g.Name)
    | _, _ => false
  if conj then some true
  else
    match groupByName with
    | none => none
    | some n =>
      match groupByGid with
      | none => none
      | some g => some (decide (n.Gid ≠ g.Gid))

/-- The condition `groupByName != nil && groupByGid != nil &&
*groupByName == *groupByGid`. -/
def sameGroup (groupByName groupByGid : Option UserGroup) : Bool :=
  match groupByName, groupByGid with
  | some n, some g => decide (n = g)
  | _, _ => false

/-- Source `Group.Check`. -/
def Group.Check (g : Group) (zero : StatusLevel) : Run :=
  let byName := g.system.LookupGroup g.Name
  let byGid := g.system.LookupGroupID g.GID
  let groupByName := byName.1
  let nameErr := byName.2
  let groupByGid := byGid.1
  let gidErr := byGid.2
  let status := Status.empty zero
  if nameErr = some GroupError.ErrUnsupported ∨ gidErr = some GroupError.ErrUnsupported then
    { result := some ({ status with WarningLevel := StatusLevel.StatusFatal },
        some GroupError.ErrUnsupported),
      calls := [] }
  else if g.State = StatePresent then
    let nameNotFound := isUnknownGroupError nameErr
    let gidNotFound := isUnknownGroupIdError gidErr
    if nameNotFound && gidNotFound then
      { result := some (
          { status with
            WarningLevel := StatusLevel.StatusWillChange
            Output := status.Output ++ ["group name and gid do not exist"]
            Differences := status.Differences ++
              [("group", StateAbsent, "group " ++ g.Name ++ " with gid " ++ g.GID, "")]
            WillChange := true }, none),
        calls := [] }
    else if nameNotFound then
      { result := some (
          { status with
            WarningLevel := StatusLevel.StatusFatal
            Output := status.Output ++ ["group gid " ++ g.GID ++ " already exists"] }, none),
        calls := [] }
    else if gidNotFound then
      { result := some (
          { status with
            WarningLevel := StatusLevel.StatusFatal
            Output := status.Output ++ ["group " ++ g.Name ++ " already exists"] }, none),
        calls := [] }
    else
      match differentGroups groupByName groupByGid with
      | none => { result := none, calls := [] }
      | some true =>
        { result := some (
            { status with
              WarningLevel := StatusLevel.StatusFatal
              Output := status.Output ++
                ["group " ++ g.Name ++ " and gid " ++ g.GID ++ " belong to different groups"] },
            none),
          calls := [] }
      | some false =>
        if sameGroup groupByName groupByGid then
          { result := some ({ status with WarningLevel := StatusLevel.StatusNoChange }, none),
            calls := [] }
        else { result := some (status, none), calls := [] }
  else if g.State = StateAbsent then
    let nameNotFound := isUnknownGroupError nameErr
    let gidNotFound := isUnknownGroupIdError gidErr
    if nameNotFound && gidNotFound then
      { result := some (
          { status with
            WarningLevel := StatusLevel.StatusNoChange
            Output := status.Output ++ ["group name and gid do not exist"] }, none),
        calls := [] }
    else if nameNotFound then
      { result := some (
          { status with
            WarningLevel := StatusLevel.StatusFatal
            Output := status.Output ++ ["group " ++ g.Name ++ " does not exist"] }, none),
        calls := [] }
    else if gidNotFound then
      { result := some (
          { status with
            WarningLevel := StatusLevel.StatusFatal
            Output := status.Output ++ ["group gid " ++ g.GID ++ " does not exist"] }, none),
        calls := [] }
    else
      match differentGroups groupByName groupByGid with
      | none => { result := none, calls := [] }
      | some true =>
        { result := some (
            { status with
              WarningLevel := StatusLevel.StatusFatal
              Output := status.Output ++
                ["group " ++ g.Name ++ " and gid " ++ g.GID ++ " belong to different groups"] },
            none),
          calls := [] }
      | some false =>
        if sameGroup groupByName groupByGid then
          { result := some (
              { status with
                WarningLevel := StatusLevel.StatusWillChange
                WillChange := true
                Differences := status.Differences ++
                  [("group", "group " ++ g.Name ++ " with gid " ++ g.GID, StateAbsent, "")] },
              none),
            calls := [] }
        else { result := some (status, none), calls := [] }
  else
    { result := some ({ status with WarningLevel := StatusLevel.StatusFatal },
        some (GroupError.other ("group: unrecognized state " ++ g.State))),
      calls := [] }

/-- Source `Group.Apply`. -/
def Group.Apply (g : Group) (zero : StatusLevel) : Run :=
  let byName := g.system.LookupGroup g.Name
  let byGid := g.system.LookupGroupID g.GID
  let groupByName := byName.1
  let nameErr := byName.2
  let groupByGid := byGid.1
  let gidErr := byGid.2
  let status := Status.empty zero
  if nameErr = some GroupError.ErrUnsupported ∨ gidErr = some GroupError.ErrUnsupported then
    { result := some ({ status with WarningLevel := StatusLevel.StatusFatal },
        some GroupError.ErrUnsupported),
      calls := [] }
  else if g.State = StatePresent then
    let nameNotFound := isUnknownGroupError nameErr
    let gidNotFound := isUnknownGroupIdError gidErr
    if nameNotFound && gidNotFound then
      match g.system.AddGroup g.Name g.GID with
      | some err =>
        { result := some (
            { status with
              WarningLevel := StatusLevel.StatusFatal
              Output := status.Output ++
                ["error adding group " ++ g.Name ++ " with gid " ++ g.GID] }, some err),
          calls := [SysCall.AddGroup g.Name g.GID] }
      | none =>
        { result := some (
            { status with
              Output := status.Output ++ ["added group " ++ g.Name ++ " with gid " ++ g.GID] },
            none),
          calls := [SysCall.AddGroup g.Name g.GID] }
    else
      { result := some ({ status with WarningLevel := StatusLevel.StatusFatal },
          some (GroupError.other
            ("will not attempt add: group " ++ g.Name ++ " with gid " ++ g.GID))),
        calls := [] }
  else if g.State = StateAbsent then
    if sameGroup groupByName groupByGid then
      match g.system.DelGroup g.Name with
      | some err =>
        { result := some (
            { status with
              WarningLevel := StatusLevel.StatusFatal
              Output := status.Output ++
                ["error deleting group " ++ g.Name ++ " with gid " ++ g.GID] }, some err),
          calls := [SysCall.DelGroup g.Name] }
      | none =>
        { result := some (
            { status with
              Output := status.Output ++ ["deleted group " ++ g.Name ++ " with gid " ++ g.GID] },
            none),
          calls := [SysCall.DelGroup g.Name] }
    else
      { result := some ({ status with WarningLevel := StatusLevel.StatusFatal },
          some (GroupError.other
            ("will not attempt delete: group " ++ g.Name ++ " with gid " ++ g.GID))),
        calls := [] }
  else
    { result := some ({ status with WarningLevel := StatusLevel.StatusFatal },
        some (GroupError.other ("group: unrecognized state " ++ g.State))),
      calls := [] }

/-- The documented contract of `LookupGroup`: a group with a nil error, or nil
with a `user.UnknownGroupError`. -/
def nameLookupOk : Option UserGroup × Option GroupError → Bool
  | (some _, none) => true
  | (none, some (GroupError.UnknownGroupError _)) => true
  | _ => false

/-- The documented contract of `LookupGroupID`: a group with a nil error, or
nil with a `user.UnknownGroupIdError`. -/
def gidLookupOk : Option UserGroup × Option GroupError → Bool
  | (some _, none) => true
  | (none, some (GroupError.UnknownGroupIdError _)) => true
  | _ => false

/-! ## Scenarios for hydration and groups -/

/-- A hydrator for the scenarios: the task `broken` does not decode, every
other node decodes to a preparer holding its name; `%q` puts the string in
double quotes. -/
def demoHydrator : Hydrator :=
  { DecodeObject := fun node =>
      if node.str = "task.broken" then Except.error (GoError.message "unknown field")
      else Except.ok { fields := [("name", node.str)] }
    quote := fun s => "\"" ++ s ++ "\"" }

/-- A system with the given groups that carries out every change. -/
def demoSystem (groups : List UserGroup) : SystemUtils :=
  { AddGroup := fun _ _ => none
    DelGroup := fun _ => none
    LookupGroup := fun name =>
      match groups.find? (fun grp => decide (grp.Name = name)) with
      | some grp => (some grp, none)
      | none => (none, some (GroupError.UnknownGroupError name))
    LookupGroupID := fun gid =>
      match groups.find? (fun grp => decide (grp.Gid = gid)) with
      | some grp => (some grp, none)
      | none => (none, some (GroupError.UnknownGroupIdError gid)) }

/-- A system on which groups are not supported. -/
def unsupportedSystem : SystemUtils :=
  { AddGroup := fun _ _ => some GroupError.ErrUnsupported
    DelGroup := fun _ => some GroupError.ErrUnsupported
    LookupGroup := fun _ => (none, some GroupError.ErrUnsupported)
    LookupGroupID := fun _ => (none, some GroupError.ErrUnsupported) }

/-- A system whose lookup by name fails for lack of permission, while the
lookup by gid finds the group `wheel`. -/
def deniedSystem : SystemUtils :=
  { demoSystem [{ Gid := "10", Name := "wheel" }] with
    LookupGroup := fun _ => (none, some (GroupError.other "permission denied")) }

/-- The group `wheel` with gid 10 in the given state on the given system. -/
def wheelGroup (state : State) (system : SystemUtils) : Group :=
  { GID := "10", Name := "wheel", State := state, system := system }

/-- The decision table for the warning level of `Check`: what the state and
the two looked-up groups call for. -/
def checkLevel (state : State) (groupByName groupByGid : Option UserGroup) : StatusLevel :=
  let missing : Bool := groupByName.isNone && groupByGid.isNone
  let same : Bool := sameGroup groupByName groupByGid
  if state = StatePresent then
    if missing then StatusLevel.StatusWillChange
    else if same then StatusLevel.StatusNoChange
    else StatusLevel.StatusFatal
  else
    if same then StatusLevel.StatusWillChange
    else if missing then StatusLevel.StatusNoChange
    else StatusLevel.StatusFatal

/-- The template library of the scenarios, parse and execution apart: an
unclosed action does not parse, with the error text of the Go library; every
other string parses and makes the calls that `demoCalls` lists; and the
execution of the string that calls `param "a"`, then `split` without
arguments, then `param "b"` ends in an error after the call `param "a"`. -/
def demoLibrary : TemplateLibrary :=
  { Parse := fun _ s =>
      if s = "\x7b\x7b" then
        some (GoError.message "template: DependencyTemplate:1: unclosed action")
      else none
    Execute := fun fn s =>
      if s = "\x7b\x7bparam \"a\"\x7d\x7d \x7b\x7bsplit\x7d\x7d \x7b\x7bparam \"b\"\x7d\x7d" then
        (if fn = "param" then ["a"] else [],
          some (GoError.message "error calling split: wrong number of args"))
      else
        ((demoCalls.filter (fun e => decide (e.1 = s) && decide (e.2.1 = fn))).flatMap
          (fun e => e.2.2), none) }

/-- A task whose one string calls `param "a"`, fails in `split`, and would
call `param "b"`. -/
def execErrorNode : Node :=
  taskNode "c"
    ["\x7b\x7bparam \"a\"\x7d\x7d \x7b\x7bsplit\x7d\x7d \x7b\x7bparam \"b\"\x7d\x7d"]

/-- A task whose one string is an unclosed action, which does not parse. -/
def unclosedNode : Node :=
  taskNode "d" ["\x7b\x7b"]

/-! ## Unwrapping, step by step -/

/-- The number of `Tasker` layers `ResolveTask` can pass through in a value. -/
def Obj.layers : Obj → Nat
  | Obj.wrapper inner => inner.layers + 1
  | Obj.tasker _ inner _ => inner.layers + 1
  | _ => 0

/-- Source `ResolveTask` call by call, each call using one unit of fuel: the
test `w == nil`, the type assertion to `Tasker` with the call of `GetTask`,
then the type assertion to `Task`. `none` means the fuel ran out. -/
def ResolveTaskFuel : Nat → Obj → Option Unwrapped
  | 0, _ => none
  | fuel + 1, w =>
    if w = Obj.nil then some (Unwrapped.returned Obj.nil false)
    else if w.isTasker then
      match w.GetTask with
      | none => some Unwrapped.panicked
      | some (taskerTask, found) =>
        if !found then some (Unwrapped.returned Obj.nil false)
        else ResolveTaskFuel fuel taskerTask
    else if w.isTask then some (Unwrapped.returned w true)
    else some (Unwrapped.returned Obj.nil false)

/-- Unwrapping fails: the value is nil, is neither `Tasker` nor `Task`, is a
`Tasker` whose `GetTask` reports not found, or is a `Tasker` whose task fails
to unwrap in turn. -/
inductive UnwrapFails : Obj → Prop where
  | nil : UnwrapFails Obj.nil
  | other (typ : String) : UnwrapFails (Obj.other typ)
  | notFound (isTask : Bool) (inner : Obj) : UnwrapFails (Obj.tasker isTask inner false)
  | wrapper {inner : Obj} : UnwrapFails inner → UnwrapFails (Obj.wrapper inner)
  | tasker (isTask : Bool) {inner : Obj} :
      UnwrapFails inner → UnwrapFails (Obj.tasker isTask inner true)

/-- Unwrapping reaches a nil `*TaskWrapper`. -/
inductive ReachesNilWrapper : Obj → Prop where
  | here : ReachesNilWrapper Obj.nilWrapper
  | wrapper {inner : Obj} : ReachesNilWrapper inner → ReachesNilWrapper (Obj.wrapper inner)
  | tasker (isTask : Bool) {inner : Obj} :
      ReachesNilWrapper inner → ReachesNilWrapper (Obj.tasker isTask inner true)

/-! # Proofs -/

/-! ## Slices, recording and first-seen lists -/

theorem Slice.toList_push (s : Slice) (x : String) : (s.push x).toList = s.toList ++ [x] := rfl

theorem Slice.toList_appendAll (s : Slice) (xs : List String) :
    (s.appendAll xs).toList = s.toList ++ xs := by
  induction xs generalizing s with
  | nil => simp [Slice.appendAll]
  | cons x xs ih => simp [Slice.appendAll, ih, Slice.toList_push]

theorem toList_foldl_RememberCalls (calls : List String) (list : Slice) :
    (calls.foldl RememberCalls list).toList = list.toList ++ calls := by
  induction calls generalizing list with
  | nil => simp
  | cons x xs ih => simp [List.foldl_cons, ih, RememberCalls, Slice.toList_push]

theorem Slice.toList_mapInPlace (f : String → String) (s : Slice) :
    (s.mapInPlace f).toList = s.toList.map f := by
  cases s <;> rfl

theorem recorded_cons (T : TemplateEngine) (fn s : String) (rest : List String) :
    recorded T fn (s :: rest) =
      (match T.run fn s with
        | Except.ok calls => calls
        | Except.error _ => []) ++ recorded T fn rest := by
  simp [recorded]

theorem recordCalls_ok (T : TemplateEngine) (fn : String) (strings : List String)
    (list out : Slice) (h : recordCalls T fn strings list = (out, none)) :
    out.toList = list.toList ++ recorded T fn strings := by
  induction strings generalizing list with
  | nil =>
    simp [recordCalls] at h
    simp [recorded, h]
  | cons s rest ih =>
    rw [recordCalls] at h
    rw [recorded_cons]
    cases hr : T.run fn s with
    | error e => rw [hr] at h; simp at h
    | ok calls =>
      rw [hr] at h
      simp only at h
      rw [ih _ h, toList_foldl_RememberCalls, List.append_assoc]

theorem recordCalls_parsed (T : TemplateEngine) (fn : String) (strings : List String)
    (list : Slice) (hp : ∀ s ∈ strings, ∃ calls, T.run fn s = Except.ok calls) :
    (recordCalls T fn strings list).2 = none := by
  induction strings generalizing list with
  | nil => simp [recordCalls]
  | cons s rest ih =>
    obtain ⟨calls, hc⟩ := hp s (List.mem_cons_self _ _)
    rw [recordCalls, hc]
    exact ih _ (fun s hs => hp s (List.mem_cons_of_mem _ hs))

theorem recordCalls_error (T : TemplateEngine) (fn : String) (strings : List String)
    (list out : Slice) (e : GoError) (h : recordCalls T fn strings list = (out, some e)) :
    ∃ s ∈ strings, T.run fn s = Except.error e := by
  induction strings generalizing list with
  | nil => simp [recordCalls] at h
  | cons s rest ih =>
    rw [recordCalls] at h
    cases hr : T.run fn s with
    | error e2 =>
      rw [hr] at h
      simp at h
      exact ⟨s, List.mem_cons_self _ _, by rw [hr, h.2]⟩
    | ok calls =>
      rw [hr] at h
      obtain ⟨s2, hs2, h2⟩ := ih _ h
      exact ⟨s2, List.mem_cons_of_mem _ hs2, h2⟩

theorem mem_firstSeen {α : Type} [DecidableEq α] (l : List α) (x : α) :
    x ∈ firstSeen l ↔ x ∈ l := by
  induction l with
  | nil => simp [firstSeen]
  | cons y ys ih =>
    simp only [firstSeen, List.mem_cons, List.mem_filter, ih, decide_eq_true_eq]
    constructor
    · rintro (h | ⟨h, _⟩)
      · exact Or.inl h
      · exact Or.inr h
    · intro h
      by_cases hxy : x = y
      · exact Or.inl hxy
      · rcases h with h | h
        · exact Or.inl h
        · exact Or.inr ⟨h, hxy⟩

theorem nodup_firstSeen {α : Type} [DecidableEq α] (l : List α) : (firstSeen l).Nodup := by
  induction l with
  | nil => simp [firstSeen]
  | cons y ys ih =>
    simp only [firstSeen, List.nodup_cons, List.mem_filter, decide_eq_true_eq]
    exact ⟨fun h => h.2 rfl, ih.filter _⟩

theorem firstSeen_sublist {α : Type} [DecidableEq α] (l : List α) : (firstSeen l).Sublist l := by
  induction l with
  | nil => simp [firstSeen]
  | cons y ys ih =>
    simp only [firstSeen]
    exact List.Sublist.cons₂ _ ((List.filter_sublist _).trans ih)

/-! ## Resolution of calls -/

theorem root_len : "root/".length = 5 := by decide

theorem dotCuts_root (cs : List Char) :
    dotCuts ('r' :: 'o' :: 'o' :: 't' :: '/' :: cs) =
      (dotCuts cs).map (fun p => ('r' :: 'o' :: 'o' :: 't' :: '/' :: p.1, p.2)) := by
  simp [dotCuts, List.map_map, Function.comp_def]

theorem root_append_data (c : String) :
    ("root/" ++ c).data = 'r' :: 'o' :: 'o' :: 't' :: '/' :: c.data := by
  rw [String.data_append]; rfl

theorem stems_root (c : String) (p : String × String) (hp : p ∈ dottedStems ("root/" ++ c)) :
    p.1 = "root/" ++ sliceFrom "root/".length p.1 := by
  rw [root_len]
  simp only [dottedStems, List.mem_cons, List.mem_map, List.mem_reverse] at hp
  rcases hp with rfl | ⟨q, hq, rfl⟩
  · apply String.ext
    simp [sliceFrom, root_append_data]
  · rw [root_append_data, dotCuts_root] at hq
    simp only [List.mem_map] at hq
    obtain ⟨r, _, rfl⟩ := hq
    apply String.ext
    simp [sliceFrom]

theorem VertexSplit_root (g : Graph) (c v rest : String)
    (h : VertexSplit g ("root/" ++ c) = some (v, rest)) :
    v = "root/" ++ sliceFrom "root/".length v ∧ v ∈ g.ids := by
  unfold VertexSplit at h
  have hm := List.mem_of_find?_eq_some h
  have hc := List.find?_some h
  exact ⟨stems_root c (v, rest) hm, by simpa [Graph.Contains] using hc⟩

theorem VertexSplit_none (g : Graph) (s : String) :
    VertexSplit g s = none ↔ ∀ p ∈ dottedStems s, p.1 ∉ g.ids := by
  simp [VertexSplit, Graph.Contains]

theorem xrefTarget_eq (g : Graph) (c v rest : String)
    (h : VertexSplit g ("root/" ++ c) = some (v, rest)) :
    xrefTarget g c = sliceFrom "root/".length v := by
  simp [xrefTarget, h]

theorem resolveCalls_ok (g : Graph) (calls nodeRefs : List String) (out : Slice)
    (hr : ∀ c ∈ calls, VertexSplit g ("root/" ++ c) ≠ none) :
    (resolveCalls g calls nodeRefs out).2 = none ∧
    (resolveCalls g calls nodeRefs out).1.toList =
      out.toList ++ (firstSeen (calls.map (xrefTarget g))).filter (fun x => decide (x ∉ nodeRefs)) := by
  induction calls generalizing nodeRefs out with
  | nil => simp [resolveCalls, firstSeen]
  | cons c rest ih =>
    have hrest : ∀ c ∈ rest, VertexSplit g ("root/" ++ c) ≠ none :=
      fun c hc => hr c (List.mem_cons_of_mem _ hc)
    cases hv : VertexSplit g ("root/" ++ c) with
    | none => exact absurd hv (hr c (List.mem_cons_self _ _))
    | some p =>
      obtain ⟨v, r⟩ := p
      have ht := xrefTarget_eq g c v r hv
      rw [resolveCalls, hv]
      simp only [List.map_cons, firstSeen, ← ht]
      by_cases hmem : xrefTarget g c ∈ nodeRefs
      · rw [if_pos hmem]
        refine ⟨(ih nodeRefs out hrest).1, ?_⟩
        rw [(ih nodeRefs out hrest).2, List.filter_cons_of_neg (by simpa using hmem),
          List.filter_filter]
        congr 1
        apply List.filter_congr
        intro x _
        by_cases hx : x ∈ nodeRefs
        · simp [hx]
        · have : x ≠ xrefTarget g c := fun h => hx (h ▸ hmem)
          simp [hx, this]
      · rw [if_neg hmem]
        refine ⟨(ih _ _ hrest).1, ?_⟩
        rw [(ih _ _ hrest).2, List.filter_cons_of_pos (by simpa using hmem),
          List.filter_filter, Slice.toList_push, List.append_assoc, List.singleton_append]
        congr 2
        apply List.filter_congr
        intro x _
        by_cases hx : x = xrefTarget g c
        · simp [hx]
        · by_cases hx2 : x ∈ nodeRefs <;> simp [hx, hx2]

theorem resolveCalls_first (g : Graph) (before after nodeRefs : List String) (c : String)
    (out : Slice) (hb : ∀ x ∈ before, VertexSplit g ("root/" ++ x) ≠ none)
    (hc : VertexSplit g ("root/" ++ c) = none) :
    resolveCalls g (before ++ c :: after) nodeRefs out =
      (Slice.mk [], some (GoError.message ("unresolvable call to " ++ c))) := by
  induction before generalizing nodeRefs out with
  | nil => simp [resolveCalls, hc]
  | cons b rest ih =>
    have hrest : ∀ x ∈ rest, VertexSplit g ("root/" ++ x) ≠ none :=
      fun x hx => hb x (List.mem_cons_of_mem _ hx)
    cases hv : VertexSplit g ("root/" ++ b) with
    | none => exact absurd hv (hb b (List.mem_cons_self _ _))
    | some p =>
      obtain ⟨v, r⟩ := p
      rw [List.cons_append, resolveCalls, hv]
      simp only
      split
      · exact ih _ _ hrest
      · exact ih _ _ hrest

theorem first_unresolved (g : Graph) (calls : List String)
    (h : ∃ c ∈ calls, VertexSplit g ("root/" ++ c) = none) :
    ∃ before c after, calls = before ++ c :: after ∧
      (∀ x ∈ before, VertexSplit g ("root/" ++ x) ≠ none) ∧
      VertexSplit g ("root/" ++ c) = none := by
  induction calls with
  | nil => simp at h
  | cons a rest ih =>
    by_cases ha : VertexSplit g ("root/" ++ a) = none
    · exact ⟨[], a, rest, rfl, by simp, ha⟩
    · obtain ⟨c, hc, hcn⟩ := h
      rcases List.mem_cons.1 hc with rfl | hc2
      · exact absurd hcn ha
      · obtain ⟨before, c2, after, he, hb, hn⟩ := ih ⟨c, hc2, hcn⟩
        refine ⟨a :: before, c2, after, by rw [he]; rfl, ?_, hn⟩
        intro x hx
        rcases List.mem_cons.1 hx with rfl | hx2
        · exact ha
        · exact hb x hx2

/-! ## Edges added by the resolver -/

theorem parses_run (T : TemplateEngine) (fn : String) (strings : List String)
    (hp : ∀ s ∈ strings, parses T fn s = true) :
    ∀ s ∈ strings, ∃ calls, T.run fn s = Except.ok calls := by
  intro s hs
  have h := hp s hs
  unfold parses at h
  cases hr : T.run fn s with
  | error e => rw [hr] at h; simp at h
  | ok calls => exact ⟨calls, rfl⟩

theorem sliceFrom_root (x : String) : sliceFrom "root/".length ("root/" ++ x) = x := by
  rw [root_len]
  apply String.ext
  simp [sliceFrom, root_append_data]

theorem getXrefs_eq (T : TemplateEngine) (g : Graph) (node : Node) (strings : List String)
    (hs : node.GetStrings = Except.ok strings)
    (hp : ∀ s ∈ strings, parses T RefFuncName s = true) :
    getXrefs T g node = resolveCalls g (recorded T RefFuncName strings) [] Slice.nil := by
  have h2 := recordCalls_parsed T RefFuncName strings Slice.nil (parses_run T _ _ hp)
  rw [getXrefs, hs]
  simp only
  cases hrc : recordCalls T RefFuncName strings Slice.nil with
  | mk calls err =>
    rw [hrc] at h2
    simp only at h2
    subst h2
    have h3 := recordCalls_ok T RefFuncName strings Slice.nil calls hrc
    rw [show Slice.nil.toList = [] from rfl, List.nil_append] at h3
    simp only
    rw [h3]

theorem mem_Connect (g : Graph) (a b : String) (e : String × String) :
    e ∈ (g.Connect a b).edges ↔ e ∈ g.edges ∨ e = (a, b) := by
  unfold Graph.Connect
  split
  · constructor
    · exact Or.inl
    · rintro (h | rfl)
      · exact h
      · assumption
  · simp

theorem Connect_vertices (g : Graph) (a b : String) : (g.Connect a b).vertices = g.vertices := by
  unfold Graph.Connect
  split <;> rfl

theorem connectDeps_vertices (id : String) (deps : List String) (out : Graph) :
    (connectDeps id deps out).vertices = out.vertices := by
  induction deps generalizing out with
  | nil => rfl
  | cons d ds ih => rw [connectDeps, ih, Connect_vertices]

theorem connectDeps_mono (id : String) (deps : List String) (out : Graph) (e : String × String)
    (he : e ∈ out.edges) : e ∈ (connectDeps id deps out).edges := by
  induction deps generalizing out with
  | nil => exact he
  | cons d ds ih =>
    rw [connectDeps]
    exact ih _ ((mem_Connect _ _ _ _).2 (Or.inl he))

theorem connectDeps_mem (id : String) (deps : List String) (out : Graph) (r : String)
    (hr : r ∈ deps) : (id, SiblingID id r) ∈ (connectDeps id deps out).edges := by
  induction deps generalizing out with
  | nil => simp at hr
  | cons d ds ih =>
    rw [connectDeps]
    rcases List.mem_cons.1 hr with rfl | h
    · exact connectDeps_mono _ _ _ _ ((mem_Connect _ _ _ _).2 (Or.inr rfl))
    · exact ih _ h

theorem runGenerators_ok (id : String) (node : Node)
    (gens : List (Node → Slice × Option GoError)) (out res : Graph)
    (h : runGenerators id node gens out = Except.ok res) :
    res.vertices = out.vertices ∧ (∀ e ∈ out.edges, e ∈ res.edges) ∧
    ∀ gen ∈ gens, (gen node).2 = none ∧
      ∀ r ∈ (gen node).1.toList, (id, SiblingID id r) ∈ res.edges := by
  induction gens generalizing out with
  | nil =>
    simp only [runGenerators, Except.ok.injEq] at h
    subst h
    simp
  | cons gen rest ih =>
    rw [runGenerators] at h
    cases hg : gen node with
    | mk deps err =>
      rw [hg] at h
      cases err with
      | some e => simp at h
      | none =>
        simp only at h
        obtain ⟨hv, hm, hall⟩ := ih _ h
        refine ⟨by rw [hv, connectDeps_vertices], ?_, ?_⟩
        · intro e he
          exact hm e (connectDeps_mono _ _ _ _ he)
        · intro gen2 hg2
          rcases List.mem_cons.1 hg2 with rfl | hg3
          · rw [hg]
            exact ⟨rfl, fun r hr => hm _ (connectDeps_mem _ _ _ _ hr)⟩
          · exact hall gen2 hg3

theorem resolveVertex_ok (T : TemplateEngine) (g : Graph) (id : String) (out res : Graph)
    (h : resolveVertex T g id out = Except.ok res) :
    res.vertices = out.vertices ∧ (∀ e ∈ out.edges, e ∈ res.edges) ∧
    (id ≠ "root" → ∃ node, out.Get id = Value.node node ∧
      ∀ gen ∈ [getDepends, getParams T, getXrefs T g], (gen node).2 = none ∧
        ∀ r ∈ (gen node).1.toList, (id, SiblingID id r) ∈ res.edges) := by
  unfold resolveVertex at h
  by_cases hid : id = "root"
  · rw [if_pos hid] at h
    simp only [Except.ok.injEq] at h
    subst h
    exact ⟨rfl, fun e he => he, fun hne => absurd hid hne⟩
  · rw [if_neg hid] at h
    cases hget : out.Get id with
    | nil => rw [hget] at h; simp at h
    | other t => rw [hget] at h; simp at h
    | preparer p => rw [hget] at h; simp at h
    | node n =>
      rw [hget] at h
      simp only at h
      obtain ⟨hv, hm, hall⟩ := runGenerators_ok _ _ _ _ _ h
      exact ⟨hv, hm, fun _ => ⟨n, rfl, hall⟩⟩

theorem walk_resolve_ok (T : TemplateEngine) (g : Graph) (ids : List String) (out res : Graph)
    (h : Graph.walk (resolveVertex T g) ids out = Except.ok res) :
    res.vertices = out.vertices ∧ (∀ e ∈ out.edges, e ∈ res.edges) ∧
    ∀ id ∈ ids, id ≠ "root" → ∃ node, out.Get id = Value.node node ∧
      ∀ gen ∈ [getDepends, getParams T, getXrefs T g], (gen node).2 = none ∧
        ∀ r ∈ (gen node).1.toList, (id, SiblingID id r) ∈ res.edges := by
  induction ids generalizing out with
  | nil =>
    simp only [Graph.walk, Except.ok.injEq] at h
    subst h
    simp
  | cons id rest ih =>
    rw [Graph.walk] at h
    cases hcb : resolveVertex T g id out with
    | error e => rw [hcb] at h; simp at h
    | ok mid =>
      rw [hcb] at h
      simp only at h
      obtain ⟨hv1, hm1, hp1⟩ := resolveVertex_ok T g id out mid hcb
      obtain ⟨hv2, hm2, hp2⟩ := ih mid h
      refine ⟨hv2.trans hv1, fun e he => hm2 e (hm1 e he), ?_⟩
      intro id2 hid2 hne
      rcases List.mem_cons.1 hid2 with rfl | hin
      · obtain ⟨node, hget, hall⟩ := hp1 hne
        refine ⟨node, hget, fun gen hgen => ?_⟩
        exact ⟨(hall gen hgen).1, fun r hr => hm2 _ ((hall gen hgen).2 r hr)⟩
      · obtain ⟨node, hget, hall⟩ := hp2 id2 hin hne
        refine ⟨node, ?_, hall⟩
        rw [← hget, Graph.Get, Graph.Get, hv1]

theorem getParams_ok (T : TemplateEngine) (node : Node) (strings : List String)
    (hs : node.GetStrings = Except.ok strings) (h : (getParams T node).2 = none) :
    (getParams T node).1.toList =
      (recorded T "param" strings).map (fun val => "param." ++ val) := by
  rw [getParams, hs] at h ⊢
  simp only at h ⊢
  cases hrc : recordCalls T "param" strings Slice.nil with
  | mk out err =>
    rw [hrc] at h
    cases err with
    | some e => simp at h
    | none =>
      simp only
      rw [Slice.toList_mapInPlace, recordCalls_ok T "param" strings Slice.nil out hrc]
      simp [Slice.toList]

theorem getDepends_ok (node : Node) (deps : Slice)
    (h : node.GetStringSlice "depends" = Except.ok deps) : getDepends node = (deps, none) := by
  simp [getDepends, h]

/-! ## Claims about the dependency resolver -/

/-- C5: `getDepends` returns the empty list and no error when the `depends`
lookup reports `ErrNotFound`, the looked-up list unchanged and no error when
the lookup succeeds, and the lookup error itself with the nil list for every
other error. -/
theorem getDepends_cases (node : Node) :
    (node.GetStringSlice "depends" = Except.error GoError.ErrNotFound →
      getDepends node = (Slice.mk [], none)) ∧
    (∀ deps, node.GetStringSlice "depends" = Except.ok deps →
      getDepends node = (deps, none)) ∧
    (∀ err, err ≠ GoError.ErrNotFound → node.GetStringSlice "depends" = Except.error err →
      getDepends node = (Slice.nil, some err)) := by
  refine ⟨fun h => ?_, fun deps h => ?_, fun err hne h => ?_⟩
  · simp [getDepends, h]
  · simp [getDepends, h]
  · unfold getDepends
    rw [h]
    cases err with
    | ErrNotFound => exact absurd rfl hne
    | message m => rfl

/-- Scenario for C5: a task whose `depends` is `["task.a"]`, a task without
`depends`, and a node whose lookup fails with another error. -/
theorem getDepends_cases_witness :
    getDepends greetNode = (Slice.mk ["task.a"], none) ∧
    getDepends twiceNode = (Slice.mk [], none) ∧
    getDepends (demoNode "task" "c" (Except.error (GoError.message "not a list")) []) =
      (Slice.nil, some (GoError.message "not a list")) :=
  ⟨(getDepends_cases greetNode).2.1 _ rfl,
   (getDepends_cases twiceNode).1 rfl,
   (getDepends_cases _).2.2 _ (by decide) rfl⟩

/-- C2, as stated, fails: executing the one string of the node calls `param`
twice with the name `x`, the recorder records each call, and `getParams`
returns both, `["param.x", "param.x"]`; nothing is removed. -/
theorem getParams_repeats :
    demoEngine.run "param" "\x7b\x7bparam \"x\"\x7d\x7d and \x7b\x7bparam \"x\"\x7d\x7d" =
      Except.ok ["x", "x"] ∧
    RememberCalls (RememberCalls Slice.nil "x") "x" = Slice.mk ["x", "x"] ∧
    getParams demoEngine twiceNode = (Slice.mk ["param.x", "param.x"], none) := by
  refine ⟨rfl, rfl, ?_⟩
  decide

/-- C2, amended: whenever `getParams` returns no error, it returns the names
passed to `param` across all the string fields of the node, one entry for
every call, in call order, each emitted as `param.` followed by the name; a
name is in the result exactly when some call passed it. -/
theorem getParams_per_call (T : TemplateEngine) (node : Node)
    (h : (getParams T node).2 = none) :
    ∃ strings, node.GetStrings = Except.ok strings ∧
      (getParams T node).1.toList =
        (recorded T "param" strings).map (fun val => "param." ++ val) ∧
      (getParams T node).1.toList.length = (recorded T "param" strings).length ∧
      ∀ n, "param." ++ n ∈ (getParams T node).1.toList ↔ n ∈ recorded T "param" strings := by
  cases hs : node.GetStrings with
  | error e =>
    rw [getParams, hs] at h
    simp at h
  | ok strings =>
    have hl := getParams_ok T node strings hs h
    refine ⟨strings, rfl, hl, by rw [hl, List.length_map], fun n => ?_⟩
    rw [hl, List.mem_map]
    constructor
    · rintro ⟨m, hm, he⟩
      have hd := congrArg String.data he
      rw [String.data_append, String.data_append] at hd
      have hmn : m = n := String.ext (List.append_cancel_left hd)
      exact hmn ▸ hm
    · intro hn
      exact ⟨n, hn, rfl⟩

/-- Scenario for C2: the task whose one string calls `param "x"` twice. -/
theorem getParams_per_call_witness :
    ∃ strings, twiceNode.GetStrings = Except.ok strings ∧
      (getParams demoEngine twiceNode).1.toList =
        (recorded demoEngine "param" strings).map (fun val => "param." ++ val) ∧
      (getParams demoEngine twiceNode).1.toList.length =
        (recorded demoEngine "param" strings).length ∧
      ∀ n, "param." ++ n ∈ (getParams demoEngine twiceNode).1.toList ↔
        n ∈ recorded demoEngine "param" strings :=
  getParams_per_call demoEngine twiceNode (by decide)

/-- C1: evaluation of `ResolveDependencies` on a graph in which task `b` of
module `m` refers to `task.a.status`: the call resolves to the vertex
`root/task.a`, yet the edge that is added leads to `root/module.m/task.a`, and
no edge leads from `b` to `root/task.a`. -/
theorem ResolveDependencies_nested_xref :
    VertexSplit nestedGraph "root/task.a.status" = some ("root/task.a", "status") ∧
    (ResolveDependencies demoEngine nestedGraph).toOption.map Graph.edges =
      some [("root", "root/task.a"), ("root", "root/module.m"),
            ("root/module.m", "root/module.m/task.b"),
            ("root/module.m/task.b", "root/module.m/task.a")] := by
  decide

/-- C3: when the strings of a node are read and parsed and every recorded
ref-function call resolves, `getXrefs` returns, with no error, the resolved
vertex IDs without their leading `root/`, each once, in first-seen order. -/
theorem getXrefs_first_seen (T : TemplateEngine) (g : Graph) (node : Node)
    (strings : List String) (hs : node.GetStrings = Except.ok strings)
    (hp : ∀ s ∈ strings, parses T RefFuncName s = true)
    (hr : ∀ c ∈ recorded T RefFuncName strings, VertexSplit g ("root/" ++ c) ≠ none) :
    (getXrefs T g node).2 = none ∧
    (getXrefs T g node).1.toList =
      firstSeen ((recorded T RefFuncName strings).map (xrefTarget g)) ∧
    (getXrefs T g node).1.toList.Nodup ∧
    (∀ x, x ∈ (getXrefs T g node).1.toList ↔
      ∃ c ∈ recorded T RefFuncName strings, ∃ rest,
        VertexSplit g ("root/" ++ c) = some ("root/" ++ x, rest)) := by
  have heq := getXrefs_eq T g node strings hs hp
  have hok := resolveCalls_ok g (recorded T RefFuncName strings) [] Slice.nil hr
  have hlist : (getXrefs T g node).1.toList =
      firstSeen ((recorded T RefFuncName strings).map (xrefTarget g)) := by
    rw [heq, hok.2]
    simp [Slice.toList]
  refine ⟨by rw [heq]; exact hok.1, hlist, by rw [hlist]; exact nodup_firstSeen _, ?_⟩
  intro x
  rw [hlist, mem_firstSeen, List.mem_map]
  constructor
  · rintro ⟨c, hc, rfl⟩
    cases hv : VertexSplit g ("root/" ++ c) with
    | none => exact absurd hv (hr c hc)
    | some p =>
      obtain ⟨v, rest⟩ := p
      refine ⟨c, hc, rest, ?_⟩
      rw [xrefTarget_eq g c v rest hv, ← (VertexSplit_root g c v rest hv).1]
      exact hv
  · rintro ⟨c, hc, rest, hv⟩
    exact ⟨c, hc, by rw [xrefTarget_eq g c _ rest hv, sliceFrom_root]⟩

/-- Scenario for C3: the calls `task.a.status` and `task.a.output` both resolve
to `root/task.a` and yield the one entry `task.a`. -/
theorem getXrefs_first_seen_witness :
    getXrefs demoEngine flatGraph twoRefsNode = (Slice.mk ["task.a"], none) ∧
    (getXrefs demoEngine flatGraph twoRefsNode).1.toList.Nodup :=
  ⟨by decide, (getXrefs_first_seen demoEngine flatGraph twoRefsNode _ rfl (by decide)
    (by decide)).2.2.1⟩

/-- C4: when the strings of a node are read and parsed, `getXrefs` returns an
error exactly when some recorded ref-function argument `c` does not resolve,
that is when no dotted stem of `"root/" + c` is a vertex of the graph; the
result is then the empty list with `unresolvable call to c` for the first such
`c` in call order. -/
theorem getXrefs_unresolvable (T : TemplateEngine) (g : Graph) (node : Node)
    (strings : List String) (hs : node.GetStrings = Except.ok strings)
    (hp : ∀ s ∈ strings, parses T RefFuncName s = true) :
    ((getXrefs T g node).2 ≠ none ↔
      ∃ c ∈ recorded T RefFuncName strings, VertexSplit g ("root/" ++ c) = none) ∧
    (∀ before c after, recorded T RefFuncName strings = before ++ c :: after →
      (∀ x ∈ before, VertexSplit g ("root/" ++ x) ≠ none) →
      VertexSplit g ("root/" ++ c) = none →
      getXrefs T g node =
        (Slice.mk [], some (GoError.message ("unresolvable call to " ++ c)))) ∧
    (∀ c, VertexSplit g ("root/" ++ c) = none ↔
      ∀ p ∈ dottedStems ("root/" ++ c), p.1 ∉ g.ids) := by
  have heq := getXrefs_eq T g node strings hs hp
  refine ⟨⟨fun herr => ?_, fun hex => ?_⟩, ?_, fun c => VertexSplit_none g _⟩
  · by_contra hno
    push_neg at hno
    exact herr (by rw [heq]; exact (resolveCalls_ok g _ [] Slice.nil hno).1)
  · obtain ⟨before, c, after, he, hb, hc⟩ := first_unresolved g _ hex
    rw [heq, he, resolveCalls_first g before after [] c Slice.nil hb hc]
    simp
  · intro before c after he hb hc
    rw [heq, he, resolveCalls_first g before after [] c Slice.nil hb hc]

/-- Scenario for C4: the call `task.nonexistent` does not resolve in the graph
of the scenarios. -/
theorem getXrefs_unresolvable_witness :
    getXrefs demoEngine flatGraph danglingNode =
      (Slice.mk [], some (GoError.message "unresolvable call to task.nonexistent")) :=
  (getXrefs_unresolvable demoEngine flatGraph danglingNode _ rfl (by decide)).2.1
    [] "task.nonexistent" [] (by decide) (by decide) (by decide)

/-- C6: when `ResolveDependencies` succeeds, every vertex other than `root`
holds a parse node, and the output has the edge from the vertex to
`siblingID(id, r) = parent(id) + "/" + r` for every `r` of its `depends` list
and to `siblingID(id, "param." + n)` for every name `n` its strings pass to
`param`. -/
theorem ResolveDependencies_sibling_edges (T : TemplateEngine) (g out : Graph)
    (h : ResolveDependencies T g = Except.ok out) (id : String) (hid : id ∈ g.ids)
    (hne : id ≠ "root") :
    ∃ node, g.Get id = Value.node node ∧
      (∀ deps, node.GetStringSlice "depends" = Except.ok deps →
        ∀ r ∈ deps.toList, (id, ParentID id ++ "/" ++ r) ∈ out.edges) ∧
      (∀ strings, node.GetStrings = Except.ok strings →
        ∀ n ∈ recorded T "param" strings,
          (id, ParentID id ++ "/" ++ ("param." ++ n)) ∈ out.edges) := by
  obtain ⟨_, _, hall⟩ := walk_resolve_ok T g g.ids g out h
  obtain ⟨node, hget, hgen⟩ := hall id hid hne
  refine ⟨node, hget, fun deps hd r hr => ?_, fun strings hs n hn => ?_⟩
  · have h1 := (hgen getDepends (by simp)).2 r
    rw [getDepends_ok node deps hd] at h1
    exact h1 hr
  · have h1 := hgen (getParams T) (by simp)
    have h2 := getParams_ok T node strings hs h1.1
    apply h1.2
    rw [h2]
    exact List.mem_map.2 ⟨n, hn, rfl⟩

/-- Scenario for C6: task `greet` depends on `task.a` and reads the parameter
`name`. -/
theorem ResolveDependencies_sibling_edges_witness :
    ∃ out, ResolveDependencies demoEngine flatGraph = Except.ok out ∧
      ("root/task.greet", "root/task.a") ∈ out.edges ∧
      ("root/task.greet", "root/param.name") ∈ out.edges := by
  cases h : ResolveDependencies demoEngine flatGraph with
  | error e =>
    have h2 : (ResolveDependencies demoEngine flatGraph).toOption.isSome = true := by decide
    rw [h] at h2
    simp [Except.toOption] at h2
  | ok out =>
    obtain ⟨node, hget, hd, hp⟩ :=
      ResolveDependencies_sibling_edges demoEngine flatGraph out h "root/task.greet"
        (by decide) (by decide)
    have hnode : node = greetNode := by
      have h3 : flatGraph.Get "root/task.greet" = Value.node greetNode := by
        simp [Graph.Get, flatGraph, lookupValue]
      rw [h3] at hget
      injection hget with h4
      exact h4.symm
    subst hnode
    refine ⟨out, rfl, ?_, ?_⟩
    · exact hd (Slice.mk ["task.a"]) rfl "task.a" (by simp [Slice.toList])
    · exact hp _ rfl "name" (by decide)

/-! ## The loader: queue and graph -/

theorem firstSeen_append {α : Type} [DecidableEq α] (l m : List α) :
    firstSeen (l ++ m) = firstSeen l ++ (firstSeen m).filter (fun y => decide (y ∉ l)) := by
  induction l with
  | nil => simp [firstSeen]
  | cons a l ih =>
    rw [List.cons_append]
    simp only [firstSeen, ih, List.filter_append, List.filter_filter, List.cons_append]
    congr 2
    apply List.filter_congr
    intro x _
    by_cases h1 : x = a <;> by_cases h2 : x ∈ l <;> simp [h1, h2]

theorem firstSeen_snoc {α : Type} [DecidableEq α] (l : List α) (x : α) :
    firstSeen (l ++ [x]) = if x ∈ firstSeen l then firstSeen l else firstSeen l ++ [x] := by
  simp only [firstSeen_append, mem_firstSeen]
  by_cases h : x ∈ l <;> simp [firstSeen, h]

theorem firstSeen_of_nodup {α : Type} [DecidableEq α] (l : List α) (h : l.Nodup) :
    firstSeen l = l := by
  induction l with
  | nil => rfl
  | cons a l ih =>
    rw [List.nodup_cons] at h
    rw [firstSeen, ih h.2, List.filter_eq_self.2]
    intro x hx
    have : x ≠ a := fun e => h.1 (e ▸ hx)
    simpa using this

theorem Add_ids (g : Graph) (id : String) (v : Value) :
    (g.Add id v).ids = if id ∈ g.ids then g.ids else g.ids ++ [id] := by
  unfold Graph.Add
  by_cases h : id ∈ g.ids
  · simp [Graph.Contains, h]
  · have h2 : id ∉ List.map Prod.fst g.vertices := h
    simp [Graph.Contains, h2, Graph.ids]

theorem Add_edges (g : Graph) (id : String) (v : Value) : (g.Add id v).edges = g.edges := by
  unfold Graph.Add
  split <;> rfl

theorem Connect_ids (g : Graph) (a b : String) : (g.Connect a b).ids = g.ids := by
  rw [Graph.ids, Connect_vertices, Graph.ids]

theorem Connect_edges (g : Graph) (a b : String) :
    (g.Connect a b).edges = if (a, b) ∈ g.edges then g.edges else g.edges ++ [(a, b)] := by
  unfold Graph.Connect
  split <;> rfl

theorem addResources_queue (P : String) (nodes : List Node) (q : List source) (out : Graph) :
    (addResources P nodes q out).1 =
      q ++ (nodes.filter (fun n => n.IsModule)).map
        (fun n => { Parent := ID P n.str, Source := n.Source }) := by
  induction nodes generalizing q out with
  | nil => simp [addResources]
  | cons n rest ih =>
    rw [addResources, ih]
    by_cases hm : n.IsModule = true
    · simp [hm]
    · simp [hm]

theorem addResources_graph (P : String) (nodes : List Node) (q : List source) (out : Graph)
    (A : List String) (B : List (String × String)) (hA : out.ids = firstSeen A)
    (hB : out.edges = firstSeen B) :
    (addResources P nodes q out).2.ids = firstSeen (A ++ nodes.map (fun n => ID P n.str)) ∧
    (addResources P nodes q out).2.edges =
      firstSeen (B ++ nodes.map (fun n => (P, ID P n.str))) := by
  induction nodes generalizing q out A B with
  | nil => simpa [addResources] using ⟨hA, hB⟩
  | cons n rest ih =>
    rw [addResources]
    have h1 : ((out.Add (ID P n.str) (Value.node n)).Connect P (ID P n.str)).ids =
        firstSeen (A ++ [ID P n.str]) := by
      rw [Connect_ids, Add_ids, firstSeen_snoc, hA]
    have h2 : ((out.Add (ID P n.str) (Value.node n)).Connect P (ID P n.str)).edges =
        firstSeen (B ++ [(P, ID P n.str)]) := by
      rw [Connect_edges, Add_edges, firstSeen_snoc, hB]
      split <;> rfl
    have h3 := fun q2 => ih q2 _ _ _ h1 h2
    simpa [List.append_assoc] using h3 _

theorem NodesStep_eq (w : World) (root : String) (current : source) (toLoad : List source)
    (out : Graph) :
    NodesStep w root current toLoad out =
      match loadModule w root current.Source with
      | Except.error err => Except.error err
      | Except.ok nodes => Except.ok (addResources current.Parent nodes toLoad out) := by
  unfold NodesStep loadModule
  cases w.ResolveInContext current.Source root with
  | error e => rfl
  | ok url =>
    simp only
    cases w.Any url with
    | error e => rfl
    | ok content => rfl

theorem nodesOf_ok (w : World) (root src : String) (nodes : List Node)
    (h : loadModule w root src = Except.ok nodes) : nodesOf w root src = nodes := by
  simp [nodesOf, h]

theorem NodesStep_ok (w : World) (root : String) (current : source) (toLoad toLoad2 : List source)
    (out out2 : Graph) (h : NodesStep w root current toLoad out = Except.ok (toLoad2, out2)) :
    loadModule w root current.Source = Except.ok (nodesOf w root current.Source) ∧
    (toLoad2, out2) = addResources current.Parent (nodesOf w root current.Source) toLoad out := by
  rw [NodesStep_eq] at h
  cases hl : loadModule w root current.Source with
  | error e => rw [hl] at h; simp at h
  | ok nodes =>
    rw [hl] at h
    simp only [Except.ok.injEq] at h
    rw [nodesOf_ok w root _ nodes hl]
    exact ⟨rfl, h.symm⟩

theorem finiteDepth_succ (w : World) (root : String) (d : Nat) (src : String)
    (h : finiteDepth w root (d + 1) src = true) :
    loadModule w root src = Except.ok (nodesOf w root src) ∧
    ∀ n ∈ nodesOf w root src, n.IsModule = true → finiteDepth w root d n.Source = true := by
  rw [finiteDepth] at h
  cases hl : loadModule w root src with
  | error e => rw [hl] at h; simp at h
  | ok nodes =>
    rw [hl] at h
    rw [nodesOf_ok w root _ nodes hl]
    refine ⟨rfl, fun n hn hm => ?_⟩
    have := List.all_eq_true.1 h n hn
    simpa [hm] using this

theorem childModules_finite (w : World) (root : String) (d : Nat) (s : source)
    (h : finiteDepth w root (d + 1) s.Source = true) :
    ∀ c ∈ childModules w root s, finiteDepth w root d c.Source = true := by
  intro c hc
  simp only [childModules, List.mem_map, List.mem_filter] at hc
  obtain ⟨n, ⟨hn, hm⟩, rfl⟩ := hc
  exact (finiteDepth_succ w root d _ h).2 n hn hm

theorem NodesStep_finite (w : World) (root : String) (d : Nat) (current : source)
    (toLoad : List source) (out : Graph)
    (h : finiteDepth w root (d + 1) current.Source = true) :
    ∃ out2, NodesStep w root current toLoad out =
      Except.ok (toLoad ++ childModules w root current, out2) := by
  have hl := (finiteDepth_succ w root d _ h).1
  rw [NodesStep_eq, hl]
  refine ⟨(addResources current.Parent (nodesOf w root current.Source) toLoad out).2, ?_⟩
  simp only
  congr 1
  apply Prod.ext
  · rw [addResources_queue]; rfl
  · rfl

theorem NodesLoop_drain (w : World) (root : String) (d : Nat) (q1 : List source)
    (h : ∀ s ∈ q1, finiteDepth w root (d + 1) s.Source = true) (q2 : List source)
    (out : Graph) :
    ∃ out2, ∀ fuel, NodesLoop w root (q1.length + fuel) (q1 ++ q2) out =
      NodesLoop w root fuel (q2 ++ q1.flatMap (childModules w root)) out2 := by
  induction q1 generalizing q2 out with
  | nil => exact ⟨out, fun fuel => by simp⟩
  | cons s rest ih =>
    obtain ⟨out1, h1⟩ := NodesStep_finite w root d s (rest ++ q2) out
      (h s (List.mem_cons_self _ _))
    obtain ⟨out2, h2⟩ := ih (fun s hs => h s (List.mem_cons_of_mem _ hs))
      (q2 ++ childModules w root s) out1
    refine ⟨out2, fun fuel => ?_⟩
    have hf : (s :: rest).length + fuel = (rest.length + fuel) + 1 := by
      simp only [List.length_cons]; omega
    rw [hf, List.cons_append, NodesLoop, h1]
    simp only
    rw [List.append_assoc, h2, List.flatMap_cons, List.append_assoc]

theorem NodesLoop_terminates (w : World) (root : String) (d : Nat) (q : List source)
    (h : ∀ s ∈ q, finiteDepth w root d s.Source = true) (out : Graph) :
    ∃ fuel g, NodesLoop w root fuel q out = some (some g, w.Validate g) := by
  induction d generalizing q out with
  | zero =>
    cases q with
    | nil => exact ⟨0, out, by simp [NodesLoop]⟩
    | cons s rest =>
      have := h s (List.mem_cons_self _ _)
      simp [finiteDepth] at this
  | succ d ih =>
    obtain ⟨out2, h2⟩ := NodesLoop_drain w root d q h [] out
    obtain ⟨fuel, g, hg⟩ := ih (q.flatMap (childModules w root))
      (by
        intro c hc
        obtain ⟨s, hs, hcs⟩ := List.mem_flatMap.1 hc
        exact childModules_finite w root d s (h s hs) c hcs) out2
    refine ⟨q.length + fuel, g, ?_⟩
    have h3 := h2 fuel
    rw [List.append_nil, List.nil_append] at h3
    rw [h3, hg]

/-! ## The loader: what the loop maintains -/

theorem LoaderTrace_start (w : World) (root : String) :
    LoaderTrace w root [] [{ Parent := "root", Source := root }] rootGraph := by
  have h1 : rootGraph.ids = ["root"] := by decide
  have h2 : rootGraph.edges = [] := by decide
  refine ⟨by simp, by rw [h1]; rfl, by rw [h2]; rfl, ?_⟩
  intro s hs
  simp only [List.nil_append, List.mem_singleton] at hs
  subst hs
  exact Discovered.top

theorem childModules_discovered (w : World) (root : String) (s : source)
    (hs : Discovered w root s) : ∀ c ∈ childModules w root s, Discovered w root c := by
  intro c hc
  simp only [childModules, List.mem_map, List.mem_filter] at hc
  obtain ⟨n, ⟨hn, hm⟩, rfl⟩ := hc
  exact Discovered.child hs hn hm

theorem LoaderTrace_step (w : World) (root : String) (done toLoad toLoad2 : List source)
    (current : source) (out out2 : Graph)
    (hK : LoaderTrace w root done (current :: toLoad) out)
    (h : NodesStep w root current toLoad out = Except.ok (toLoad2, out2)) :
    LoaderTrace w root (done ++ [current]) toLoad2 out2 := by
  obtain ⟨hq, hids, hedges, hdisc⟩ := hK
  obtain ⟨_, hres⟩ := NodesStep_ok w root current toLoad toLoad2 out out2 h
  have hq2 : toLoad2 = toLoad ++ childModules w root current := by
    have := congrArg Prod.fst hres
    simp only at this
    rw [this, addResources_queue]
    rfl
  have hg := addResources_graph current.Parent (nodesOf w root current.Source) toLoad out _ _
    hids hedges
  rw [← hres] at hg
  simp only at hg
  refine ⟨?_, ?_, ?_, ?_⟩
  · have h3 : done ++ [current] ++ toLoad2 = (done ++ current :: toLoad) ++ childModules w root current := by
      rw [hq2]; simp
    rw [h3, hq]
    simp
  · rw [hg.1]
    simp [moduleIDs]
  · rw [hg.2]
    simp [moduleEdges]
  · intro s hs
    rw [hq2] at hs
    simp only [List.mem_append, List.mem_singleton] at hs
    have hcur : Discovered w root current := hdisc current (by simp)
    rcases hs with (hs | rfl) | hs | hs
    · exact hdisc s (by simp [hs])
    · exact hcur
    · exact hdisc s (by simp [hs])
    · exact childModules_discovered w root current hcur s hs

theorem NodesLoop_trace (w : World) (root : String) (fuel : Nat) (done toLoad : List source)
    (out g : Graph) (err : Option GoError) (hK : LoaderTrace w root done toLoad out)
    (h : NodesLoop w root fuel toLoad out = some (some g, err)) :
    LoaderTrace w root (done ++ fetchTrace w root fuel toLoad out) [] g ∧
    err = w.Validate g := by
  induction fuel generalizing done toLoad out with
  | zero =>
    cases toLoad with
    | nil =>
      simp only [NodesLoop, Option.some.injEq, Prod.mk.injEq] at h
      obtain ⟨h1, h2⟩ := h
      subst h1
      simpa [fetchTrace] using ⟨hK, h2.symm⟩
    | cons c rest => simp [NodesLoop] at h
  | succ fuel ih =>
    cases toLoad with
    | nil =>
      simp only [NodesLoop, Option.some.injEq, Prod.mk.injEq] at h
      obtain ⟨h1, h2⟩ := h
      subst h1
      simpa [fetchTrace] using ⟨hK, h2.symm⟩
    | cons c rest =>
      rw [NodesLoop] at h
      rw [fetchTrace]
      cases hs : NodesStep w root c rest out with
      | error e => rw [hs] at h; simp at h
      | ok p =>
        obtain ⟨q2, out2⟩ := p
        rw [hs] at h
        simp only at h ⊢
        have := ih _ _ _ (LoaderTrace_step w root done rest q2 c out out2 hK hs) h
        simpa [List.append_assoc] using this

theorem LoaderTrace_closed (w : World) (root : String) (done : List source) (g : Graph)
    (hK : LoaderTrace w root done [] g) (s : source) : s ∈ done ↔ Discovered w root s := by
  obtain ⟨hq, _, _, hdisc⟩ := hK
  rw [List.append_nil] at hq
  constructor
  · intro hs
    exact hdisc s (by simpa using hs)
  · intro hs
    induction hs with
    | top => rw [hq]; exact List.mem_cons_self _ _
    | child hs hn hm ih =>
      rw [hq]
      apply List.mem_cons_of_mem
      refine List.mem_flatMap.2 ⟨_, ih, ?_⟩
      simp only [childModules, List.mem_map, List.mem_filter]
      exact ⟨_, ⟨hn, hm⟩, rfl⟩

theorem LoaderTrace_ids (w : World) (root : String) (done : List source) (g : Graph)
    (hK : LoaderTrace w root done [] g) (v : String) :
    v ∈ g.ids ↔ v = "root" ∨ ∃ p n, Parsed w root p n ∧ v = ID p n.str := by
  have hcl := LoaderTrace_closed w root done g hK
  rw [hK.2.1, mem_firstSeen]
  simp only [List.mem_cons, List.mem_flatMap, moduleIDs, List.mem_map, Parsed]
  constructor
  · rintro (h | ⟨s, hs, n, hn, rfl⟩)
    · exact Or.inl h
    · exact Or.inr ⟨s.Parent, n, ⟨s, (hcl s).1 hs, rfl, hn⟩, rfl⟩
  · rintro (h | ⟨p, n, ⟨s, hs, rfl, hn⟩, rfl⟩)
    · exact Or.inl h
    · exact Or.inr ⟨s, (hcl s).2 hs, n, hn, rfl⟩

theorem LoaderTrace_edges (w : World) (root : String) (done : List source) (g : Graph)
    (hK : LoaderTrace w root done [] g) (a b : String) :
    (a, b) ∈ g.edges ↔ ∃ n, Parsed w root a n ∧ b = ID a n.str := by
  have hcl := LoaderTrace_closed w root done g hK
  rw [hK.2.2.1, mem_firstSeen]
  simp only [List.mem_flatMap, moduleEdges, List.mem_map, Parsed, Prod.mk.injEq]
  constructor
  · rintro ⟨s, hs, n, hn, rfl, rfl⟩
    exact ⟨n, ⟨s, (hcl s).1 hs, rfl, hn⟩, rfl⟩
  · rintro ⟨n, ⟨s, hs, rfl, hn⟩, rfl⟩
    exact ⟨s, (hcl s).2 hs, n, hn, rfl, rfl⟩

/-! ## The reachability invariant -/

theorem Reaches_mono (e1 e2 : List (String × String)) (h : ∀ e ∈ e1, e ∈ e2) (a b : String)
    (hr : Reaches e1 a b) : Reaches e2 a b :=
  Relation.ReflTransGen.mono (fun x y hxy => h (x, y) hxy) hr

theorem addResources_inv (P : String) (nodes : List Node) (q : List source) (out : Graph)
    (hP : P ∈ out.ids) (hI : LoaderInv q out) :
    LoaderInv (addResources P nodes q out).1 (addResources P nodes q out).2 := by
  induction nodes generalizing q out with
  | nil => exact hI
  | cons n rest ih =>
    rw [addResources]
    obtain ⟨hroot, hq, hreach⟩ := hI
    have hids : ∀ v, v ∈ ((out.Add (ID P n.str) (Value.node n)).Connect P (ID P n.str)).ids ↔
        v ∈ out.ids ∨ v = ID P n.str := by
      intro v
      rw [Connect_ids, Add_ids]
      by_cases hc : ID P n.str ∈ out.ids
      · rw [if_pos hc]
        exact ⟨Or.inl, fun h => h.elim id (fun e => e ▸ hc)⟩
      · rw [if_neg hc]
        simp
    have hedges : ∀ e, e ∈ ((out.Add (ID P n.str) (Value.node n)).Connect P (ID P n.str)).edges ↔
        e ∈ out.edges ∨ e = (P, ID P n.str) := by
      intro e
      rw [mem_Connect, Add_edges]
    apply ih
    · exact (hids P).2 (Or.inl hP)
    · refine ⟨?_, ?_, ?_⟩
      · rw [Connect_ids, Add_ids]
        by_cases hc : ID P n.str ∈ out.ids
        · rw [if_pos hc]; exact hroot
        · rw [if_neg hc, List.count_append, hroot]
          have hr : "root" ∈ out.ids := List.count_pos_iff.1 (by omega)
          have hne : ID P n.str ≠ "root" := fun e => hc (e ▸ hr)
          simp [List.count_singleton, hne]
      · intro s hs
        by_cases hm : n.IsModule = true
        · rw [if_pos hm] at hs
          rcases List.mem_append.1 hs with h1 | h1
          · exact (hids _).2 (Or.inl (hq s h1))
          · rw [List.mem_singleton] at h1
            subst h1
            exact (hids _).2 (Or.inr rfl)
        · rw [if_neg hm] at hs
          exact (hids _).2 (Or.inl (hq s hs))
      · intro v hv
        rcases (hids v).1 hv with h1 | h1
        · exact Reaches_mono _ _ (fun e he => (hedges e).2 (Or.inl he)) _ _ (hreach v h1)
        · subst h1
          exact Relation.ReflTransGen.tail
            (Reaches_mono _ _ (fun e he => (hedges e).2 (Or.inl he)) _ _ (hreach P hP))
            ((hedges _).2 (Or.inr rfl))

theorem LoaderInv_start (root : String) :
    LoaderInv [{ Parent := "root", Source := root }] rootGraph := by
  refine ⟨by decide, ?_, ?_⟩
  · intro s hs
    rw [List.mem_singleton] at hs
    subst hs
    have h1 : rootGraph.ids = ["root"] := by decide
    rw [h1]
    exact List.mem_singleton.2 rfl
  · intro v hv
    have : v = "root" := by simpa [rootGraph, Graph.New, Graph.Add, Graph.Contains, Graph.ids] using hv
    subst this
    exact Relation.ReflTransGen.refl

theorem LoaderInv_step (w : World) (root : String) (current : source)
    (toLoad toLoad2 : List source) (out out2 : Graph) (hI : LoaderInv (current :: toLoad) out)
    (h : NodesStep w root current toLoad out = Except.ok (toLoad2, out2)) :
    LoaderInv toLoad2 out2 := by
  obtain ⟨_, hres⟩ := NodesStep_ok w root current toLoad toLoad2 out out2 h
  have hP : current.Parent ∈ out.ids := hI.2.1 current (List.mem_cons_self _ _)
  have hI2 : LoaderInv toLoad out :=
    ⟨hI.1, fun s hs => hI.2.1 s (List.mem_cons_of_mem _ hs), hI.2.2⟩
  have := addResources_inv current.Parent (nodesOf w root current.Source) toLoad out hP hI2
  rw [← hres] at this
  exact this

theorem Iterates_inv (w : World) (root : String) (toLoad : List source) (out : Graph)
    (h : Iterates w root toLoad out) : LoaderInv toLoad out := by
  induction h with
  | start => exact LoaderInv_start root
  | next _ hs ih => exact LoaderInv_step w root _ _ _ _ _ ih hs

theorem NodesLoop_iterates (w : World) (root : String) (fuel : Nat) (toLoad : List source)
    (out g : Graph) (err : Option GoError) (hI : Iterates w root toLoad out)
    (h : NodesLoop w root fuel toLoad out = some (some g, err)) : Iterates w root [] g := by
  induction fuel generalizing toLoad out with
  | zero =>
    cases toLoad with
    | nil =>
      simp only [NodesLoop, Option.some.injEq, Prod.mk.injEq] at h
      obtain ⟨h1, _⟩ := h
      subst h1
      exact hI
    | cons c rest => simp [NodesLoop] at h
  | succ fuel ih =>
    cases toLoad with
    | nil =>
      simp only [NodesLoop, Option.some.injEq, Prod.mk.injEq] at h
      obtain ⟨h1, _⟩ := h
      subst h1
      exact hI
    | cons c rest =>
      rw [NodesLoop] at h
      cases hs : NodesStep w root c rest out with
      | error e => rw [hs] at h; simp at h
      | ok p =>
        obtain ⟨q2, out2⟩ := p
        rw [hs] at h
        exact ih _ _ (Iterates.next hI hs) h

/-! ## Claims about the loader -/

/-- C7, as stated, fails: a root module that declares two tasks named `a` is
loaded without any error; the graph has the one vertex `root/task.a`. -/
theorem Nodes_duplicate_accepted :
    (Nodes dupWorld "main.hcl" 1).map (fun r => (r.1.map (fun g => (g.ids, g.edges)), r.2)) =
      some (some (["root", "root/task.a"], [("root", "root/task.a")]), none) := by
  decide

/-- C7, amended: for every finite module tree whose fetches and parses succeed,
whether or not sibling names repeat, `Nodes` returns the graph and, as its
error, only what `Validate` reports for that graph; what `Add` reports for a
repeated ID is not looked at, and the graph holds every ID once. -/
theorem Nodes_keeps_one_vertex (w : World) (root : String) (d : Nat)
    (hfin : finiteDepth w root d root = true) :
    ∃ fuel g, Nodes w root fuel = some (some g, w.Validate g) ∧ g.ids.Nodup ∧
      ∀ p n, Parsed w root p n → ID p n.str ∈ g.ids := by
  obtain ⟨fuel, g, hg⟩ := NodesLoop_terminates w root d [{ Parent := "root", Source := root }]
    (by simpa using hfin) rootGraph
  obtain ⟨hK, _⟩ := NodesLoop_trace w root fuel [] _ rootGraph g _ (LoaderTrace_start w root) hg
  refine ⟨fuel, g, hg, ?_, fun p n hp => ?_⟩
  · rw [hK.2.1]
    exact nodup_firstSeen _
  · exact (LoaderTrace_ids w root _ g hK _).2 (Or.inr ⟨p, n, hp, rfl⟩)

/-- Scenario for C7: the module with two tasks named `a`. -/
theorem Nodes_keeps_one_vertex_witness :
    ∃ fuel g, Nodes dupWorld "main.hcl" fuel = some (some g, dupWorld.Validate g) ∧
      g.ids.Nodup ∧ ∀ p n, Parsed dupWorld "main.hcl" p n → ID p n.str ∈ g.ids :=
  Nodes_keeps_one_vertex dupWorld "main.hcl" 1 (by decide)

/-- C8: for every finite module tree whose fetches and parses succeed, `Nodes`
returns a graph whose vertices are `root` and `parent/name` for every parsed
node and whose edges are `parent → parent/name`; the modules are fetched first
in, first out (the fetched entries are the root entry followed by the module
nodes of the fetched entries, in order), and vertices and edges are added in
declared order, module by module. -/
theorem Nodes_loads_tree (w : World) (root : String) (d : Nat)
    (hfin : finiteDepth w root d root = true) :
    ∃ fuel g, Nodes w root fuel = some (some g, w.Validate g) ∧
      (∀ v, v ∈ g.ids ↔ v = "root" ∨ ∃ p n, Parsed w root p n ∧ v = ID p n.str) ∧
      (∀ a b, (a, b) ∈ g.edges ↔ ∃ n, Parsed w root a n ∧ b = ID a n.str) ∧
      fetchTrace w root fuel [{ Parent := "root", Source := root }] rootGraph =
        { Parent := "root", Source := root } ::
          (fetchTrace w root fuel [{ Parent := "root", Source := root }] rootGraph).flatMap
            (childModules w root) ∧
      g.ids = firstSeen ("root" ::
        (fetchTrace w root fuel [{ Parent := "root", Source := root }] rootGraph).flatMap
          (moduleIDs w root)) ∧
      g.edges = firstSeen
        ((fetchTrace w root fuel [{ Parent := "root", Source := root }] rootGraph).flatMap
          (moduleEdges w root)) ∧
      (("root" ::
        (fetchTrace w root fuel [{ Parent := "root", Source := root }] rootGraph).flatMap
          (moduleIDs w root)).Nodup →
        g.ids = "root" ::
          (fetchTrace w root fuel [{ Parent := "root", Source := root }] rootGraph).flatMap
            (moduleIDs w root) ∧
        g.edges =
          (fetchTrace w root fuel [{ Parent := "root", Source := root }] rootGraph).flatMap
            (moduleEdges w root)) := by
  obtain ⟨fuel, g, hg⟩ := NodesLoop_terminates w root d [{ Parent := "root", Source := root }]
    (by simpa using hfin) rootGraph
  obtain ⟨hK, _⟩ := NodesLoop_trace w root fuel [] _ rootGraph g _ (LoaderTrace_start w root) hg
  rw [List.nil_append] at hK
  refine ⟨fuel, g, hg, LoaderTrace_ids w root _ g hK, LoaderTrace_edges w root _ g hK, ?_,
    hK.2.1, hK.2.2.1, fun hnd => ⟨?_, ?_⟩⟩
  · have := hK.1
    rwa [List.append_nil] at this
  · rw [hK.2.1, firstSeen_of_nodup _ hnd]
  · rw [hK.2.2.1, firstSeen_of_nodup]
    apply List.Nodup.of_map Prod.snd
    have hm : ∀ l : List source, (l.flatMap (moduleEdges w root)).map Prod.snd =
        l.flatMap (moduleIDs w root) := by
      intro l
      induction l with
      | nil => rfl
      | cons s rest ih =>
        rw [List.flatMap_cons, List.flatMap_cons, List.map_append, ih]
        simp [moduleEdges, moduleIDs, Function.comp_def]
    rw [hm]
    exact (List.nodup_cons.1 hnd).2

/-- Scenario for C8: a root module with the task `hello` and the module `m`
holding the task `inner`. -/
theorem Nodes_loads_tree_witness :
    (Nodes treeWorld "main.hcl" 2).map (fun r => (r.1.map (fun g => (g.ids, g.edges)), r.2)) =
      some (some (["root", "root/task.hello", "root/module.m", "root/module.m/task.inner"],
        [("root", "root/task.hello"), ("root", "root/module.m"),
         ("root/module.m", "root/module.m/task.inner")]), none) ∧
    ∃ fuel g, Nodes treeWorld "main.hcl" fuel = some (some g, treeWorld.Validate g) ∧
      (∀ v, v ∈ g.ids ↔
        v = "root" ∨ ∃ p n, Parsed treeWorld "main.hcl" p n ∧ v = ID p n.str) :=
  ⟨by decide,
   (Nodes_loads_tree treeWorld "main.hcl" 2 (by decide)).imp fun _ h =>
     h.imp fun _ h2 => ⟨h2.1, h2.2.1⟩⟩

/-- C9: at the top of every iteration of the queue loop of `Nodes`, and in the
graph `Nodes` returns, exactly one vertex is `root`, the parent of every queued
entry is a vertex, and every vertex is reachable from `root` along the edges
of the graph, which are the parent-to-child edges the loader added. -/
theorem Nodes_loader_invariant (w : World) (root : String) :
    (∀ toLoad out, Iterates w root toLoad out →
      out.ids.count "root" = 1 ∧ (∀ s ∈ toLoad, s.Parent ∈ out.ids) ∧
      (∀ v ∈ out.ids, Reaches out.edges "root" v)) ∧
    (∀ fuel g err, Nodes w root fuel = some (some g, err) →
      Iterates w root [] g ∧ g.ids.count "root" = 1 ∧
      (∀ v ∈ g.ids, Reaches g.edges "root" v)) := by
  refine ⟨fun toLoad out h => Iterates_inv w root toLoad out h, fun fuel g err h => ?_⟩
  have hI := NodesLoop_iterates w root fuel _ rootGraph g err Iterates.start h
  have hinv := Iterates_inv w root [] g hI
  exact ⟨hI, hinv.1, hinv.2.2⟩

/-- C10: evaluation of `Nodes` on a root module whose fetch fails with
`connection refused`: no graph is returned, and the error is the fetch error as
it is, without the URL that was being fetched. -/
theorem Nodes_fetch_error_bare :
    (Nodes failWorld "http://example.com/main.hcl" 1).map
        (fun r => (r.1.map (fun g => g.ids), r.2)) =
      some (none, some (GoError.message "connection refused")) := by
  decide

/-! ## Edges with a given source -/

theorem connectDeps_source (id : String) (deps : List String) (out : Graph)
    (e : String × String) (he : e ∈ (connectDeps id deps out).edges) :
    e ∈ out.edges ∨ e.1 = id := by
  induction deps generalizing out with
  | nil => exact Or.inl he
  | cons d ds ih =>
    rw [connectDeps] at he
    rcases ih _ he with h | h
    · rcases (mem_Connect _ _ _ _).1 h with h2 | h2
      · exact Or.inl h2
      · exact Or.inr (by rw [h2])
    · exact Or.inr h

theorem runGenerators_source (id : String) (node : Node)
    (gens : List (Node → Slice × Option GoError)) (out res : Graph)
    (h : runGenerators id node gens out = Except.ok res) (e : String × String)
    (he : e ∈ res.edges) : e ∈ out.edges ∨ e.1 = id := by
  induction gens generalizing out with
  | nil =>
    simp only [runGenerators, Except.ok.injEq] at h
    subst h
    exact Or.inl he
  | cons gen rest ih =>
    rw [runGenerators] at h
    cases hg : gen node with
    | mk deps err =>
      rw [hg] at h
      cases err with
      | some e2 => simp at h
      | none =>
        simp only at h
        rcases ih _ h with h2 | h2
        · exact connectDeps_source _ _ _ _ h2
        · exact Or.inr h2

theorem resolveVertex_source (T : TemplateEngine) (g : Graph) (id : String) (out res : Graph)
    (h : resolveVertex T g id out = Except.ok res) (e : String × String)
    (he : e ∈ res.edges) : e ∈ out.edges ∨ (e.1 = id ∧ id ≠ "root") := by
  unfold resolveVertex at h
  by_cases hid : id = "root"
  · rw [if_pos hid] at h
    simp only [Except.ok.injEq] at h
    subst h
    exact Or.inl he
  · rw [if_neg hid] at h
    cases hget : out.Get id with
    | nil => rw [hget] at h; simp at h
    | other t => rw [hget] at h; simp at h
    | preparer p => rw [hget] at h; simp at h
    | node n =>
      rw [hget] at h
      simp only at h
      rcases runGenerators_source _ _ _ _ _ h e he with h2 | h2
      · exact Or.inl h2
      · exact Or.inr ⟨h2, hid⟩

theorem walk_resolve_source (T : TemplateEngine) (g : Graph) (ids : List String)
    (out res : Graph) (h : Graph.walk (resolveVertex T g) ids out = Except.ok res)
    (e : String × String) (he : e ∈ res.edges) : e ∈ out.edges ∨ e.1 ≠ "root" := by
  induction ids generalizing out with
  | nil =>
    simp only [Graph.walk, Except.ok.injEq] at h
    subst h
    exact Or.inl he
  | cons id rest ih =>
    rw [Graph.walk] at h
    cases hcb : resolveVertex T g id out with
    | error e2 => rw [hcb] at h; simp at h
    | ok mid =>
      rw [hcb] at h
      simp only at h
      rcases ih mid h with h2 | h2
      · rcases resolveVertex_source T g id out mid hcb e h2 with h3 | ⟨h3, h4⟩
        · exact Or.inl h3
        · exact Or.inr (by rw [h3]; exact h4)
      · exact Or.inr h2

/-! ## Claims about hydration, the root vertex and task unwrapping -/

/-- C11: for a vertex other than `root` that holds a parse node, the step of
`SetResources` fails for every kind other than `task` with the error
`<kind> is not a valid resource type in <node>` (both rendered by `%q`) and
hands back payload and edges as they were; for the kind `task` it returns the
decoded shell preparer with the edges as they were, and fails, with the
payload and edges as they were, exactly when decoding fails. -/
theorem SetResourcesStep_kinds (H : Hydrator) (id : String) (node : Node)
    (edges : List String) (hid : id ≠ "root") :
    (node.Kind ≠ "task" →
      SetResourcesStep H id (Value.node node) edges =
        (Value.node node, edges, some (GoError.message
          (H.quote node.Kind ++ " is not a valid resource type in " ++ H.quote node.str)))) ∧
    (node.Kind = "task" →
      (∀ dest, H.DecodeObject node = Except.ok dest →
        SetResourcesStep H id (Value.node node) edges = (Value.preparer dest, edges, none)) ∧
      (∀ err, H.DecodeObject node = Except.error err →
        SetResourcesStep H id (Value.node node) edges = (Value.node node, edges, some err))) := by
  refine ⟨fun hk => ?_, fun hk => ⟨fun dest hd => ?_, fun err hd => ?_⟩⟩
  · simp [SetResourcesStep, hid, hk]
  · simp [SetResourcesStep, hid, hk, hd]
  · simp [SetResourcesStep, hid, hk, hd]

/-- Scenario for C11: a node of kind `group` under `root`, and the task
`hello`. -/
theorem SetResourcesStep_kinds_witness :
    SetResourcesStep demoHydrator "root/group.staff"
        (Value.node (demoNode "group" "staff" (Except.error GoError.ErrNotFound) [])) ["x"] =
      (Value.node (demoNode "group" "staff" (Except.error GoError.ErrNotFound) []), ["x"],
        some (GoError.message
          (demoHydrator.quote "group" ++ " is not a valid resource type in " ++
            demoHydrator.quote "group.staff"))) ∧
    SetResourcesStep demoHydrator "root/task.hello" (Value.node (taskNode "hello" ["true"])) [] =
      (Value.preparer { fields := [("name", "task.hello")] }, [], none) :=
  ⟨(SetResourcesStep_kinds demoHydrator "root/group.staff"
      (demoNode "group" "staff" (Except.error GoError.ErrNotFound) []) ["x"] (by decide)).1
      (by decide),
   ((SetResourcesStep_kinds demoHydrator "root/task.hello" (taskNode "hello" ["true"]) []
      (by decide)).2 rfl).1 _ rfl⟩

/-- C15: both stages skip `root`. The step of `SetResources` returns the
payload and edge list of `root` as they are, with no error; the step of
`ResolveDependencies` leaves the graph as it is whatever `root` holds, and in
the graph `ResolveDependencies` returns every edge with source `root` was
already an edge of its input. -/
theorem root_is_skipped (H : Hydrator) (T : TemplateEngine) (g : Graph) :
    (∀ v edges, SetResourcesStep H "root" v edges = (v, edges, none)) ∧
    (∀ out, resolveVertex T g "root" out = Except.ok out) ∧
    (∀ res, ResolveDependencies T g = Except.ok res →
      ∀ dst, ("root", dst) ∈ res.edges → ("root", dst) ∈ g.edges) := by
  refine ⟨fun v edges => by simp [SetResourcesStep], fun out => by simp [resolveVertex],
    fun res h dst he => ?_⟩
  rcases walk_resolve_source T g g.ids g res h _ he with h2 | h2
  · exact h2
  · exact absurd rfl h2

/-- C13: `ResolveTask` on a task that is no `Tasker` under any number of
`WrapTask` layers returns that task and true; and whenever `ResolveTask`
returns true, what it returns is a task, is no `Tasker` and is not nil. -/
theorem ResolveTask_unwraps :
    (∀ t : Obj, t.isTask = true → t.isTasker = false →
      ∀ n, ResolveTask (wrapLayers n t) = Unwrapped.returned t true) ∧
    (∀ w x, ResolveTask w = Unwrapped.returned x true →
      x.isTask = true ∧ x.isTasker = false ∧ x ≠ Obj.nil) := by
  constructor
  · intro t ht hnt n
    induction n with
    | zero =>
      cases t with
      | task name => rfl
      | nil => simp [Obj.isTask] at ht
      | wrapper inner => simp [Obj.isTasker] at hnt
      | nilWrapper => simp [Obj.isTasker] at hnt
      | tasker b inner found => simp [Obj.isTasker] at hnt
      | other typ => simp [Obj.isTask] at ht
    | succ n ih => simpa [wrapLayers, WrapTask, ResolveTask] using ih
  · intro w
    induction w with
    | nil => intro x h; simp [ResolveTask] at h
    | task name =>
      intro x h
      simp only [ResolveTask, Unwrapped.returned.injEq, and_true] at h
      subst h
      simp [Obj.isTask, Obj.isTasker]
    | wrapper inner ih => intro x h; exact ih x (by simpa [ResolveTask] using h)
    | nilWrapper => intro x h; simp [ResolveTask] at h
    | tasker b inner found ih =>
      intro x h
      cases found with
      | false => simp [ResolveTask] at h
      | true => exact ih x (by simpa [ResolveTask] using h)
    | other typ => intro x h; simp [ResolveTask] at h

/-- Scenario for C13: a task under three layers of `WrapTask`. -/
theorem ResolveTask_unwraps_witness :
    ResolveTask (WrapTask (WrapTask (WrapTask (Obj.task "shell")))) =
      Unwrapped.returned (Obj.task "shell") true :=
  ResolveTask_unwraps.1 (Obj.task "shell") rfl rfl 3

/-! ## Claims about groups -/

/-- C16: on a system that supports groups, a group whose state is neither
`present` nor `absent` makes both `Check` and `Apply` return the status with
warning level `StatusFatal` and the error `group: unrecognized state <state>`,
with no call of `AddGroup` or `DelGroup`. -/
theorem unrecognized_state (g : Group) (zero : StatusLevel)
    (hp : g.State ≠ StatePresent) (ha : g.State ≠ StateAbsent)
    (hn : (g.system.LookupGroup g.Name).2 ≠ some GroupError.ErrUnsupported)
    (hg : (g.system.LookupGroupID g.GID).2 ≠ some GroupError.ErrUnsupported) :
    g.Check zero =
      { result := some ({ Status.empty zero with WarningLevel := StatusLevel.StatusFatal },
          some (GroupError.other ("group: unrecognized state " ++ g.State))),
        calls := [] } ∧
    g.Apply zero =
      { result := some ({ Status.empty zero with WarningLevel := StatusLevel.StatusFatal },
          some (GroupError.other ("group: unrecognized state " ++ g.State))),
        calls := [] } := by
  constructor
  · simp [Group.Check, hp, ha, hn, hg]
  · simp [Group.Apply, hp, ha, hn, hg]

/-- Scenario for C16: a group fresh from `NewGroup`, whose state is empty. -/
theorem unrecognized_state_witness :
    ((NewGroup (demoSystem [])).Check StatusLevel.StatusNoChange).result =
      some ({ Status.empty StatusLevel.StatusNoChange with
                WarningLevel := StatusLevel.StatusFatal },
        some (GroupError.other "group: unrecognized state ")) ∧
    ((NewGroup (demoSystem [])).Apply StatusLevel.StatusNoChange).calls = [] :=
  ⟨congrArg Run.result
      (unrecognized_state (NewGroup (demoSystem [])) StatusLevel.StatusNoChange
        (by decide) (by decide) (by decide) (by decide)).1,
   congrArg Run.calls
      (unrecognized_state (NewGroup (demoSystem [])) StatusLevel.StatusNoChange
        (by decide) (by decide) (by decide) (by decide)).2⟩

/-- C17: when `LookupGroup` or `LookupGroupID` returns `ErrUnsupported`, then
for every state both `Check` and `Apply` return `ErrUnsupported` itself with a
status whose warning level is `StatusFatal`, whose `WillChange` is false and
whose output is empty, and make no call of `AddGroup` or `DelGroup`. -/
theorem unsupported_system (g : Group) (zero : StatusLevel)
    (h : (g.system.LookupGroup g.Name).2 = some GroupError.ErrUnsupported ∨
      (g.system.LookupGroupID g.GID).2 = some GroupError.ErrUnsupported) :
    g.Check zero =
      { result := some (
          { WarningLevel := StatusLevel.StatusFatal, Output := [], WillChange := false,
            Differences := [] }, some GroupError.ErrUnsupported),
        calls := [] } ∧
    g.Apply zero =
      { result := some (
          { WarningLevel := StatusLevel.StatusFatal, Output := [], WillChange := false,
            Differences := [] }, some GroupError.ErrUnsupported),
        calls := [] } := by
  constructor
  · simp [Group.Check, h, Status.empty]
  · simp [Group.Apply, h, Status.empty]

/-- Scenario for C17: the group `wheel`, to be present, on a system without
group support. -/
theorem unsupported_system_witness :
    ((wheelGroup StatePresent unsupportedSystem).Apply StatusLevel.StatusNoChange).calls = [] ∧
    ((wheelGroup StatePresent unsupportedSystem).Check StatusLevel.StatusNoChange).result =
      some ({ WarningLevel := StatusLevel.StatusFatal, Output := [], WillChange := false,
              Differences := [] }, some GroupError.ErrUnsupported) :=
  ⟨congrArg Run.calls
      (unsupported_system (wheelGroup StatePresent unsupportedSystem)
        StatusLevel.StatusNoChange (Or.inl rfl)).2,
   congrArg Run.result
      (unsupported_system (wheelGroup StatePresent unsupportedSystem)
        StatusLevel.StatusNoChange (Or.inl rfl)).1⟩

/-- C20: evaluation of `Check` for the group `wheel`, to be present, when the
lookup by name returns nil with the error `permission denied` and the lookup
by gid finds the group: the condition of the fourth case compares the `Gid`
fields, the nil pointer is dereferenced and `Check` returns no status. -/
theorem Check_nil_dereference :
    differentGroups none (some { Gid := "10", Name := "wheel" }) = none ∧
    (wheelGroup StatePresent deniedSystem).Check StatusLevel.StatusNoChange =
      { result := none, calls := [] } ∧
    (wheelGroup StateAbsent deniedSystem).Check StatusLevel.StatusNoChange =
      { result := none, calls := [] } := by
  decide

theorem nameLookupOk_cases (r : Option UserGroup × Option GroupError)
    (h : nameLookupOk r = true) :
    (∃ grp, r = (some grp, none)) ∨ ∃ x, r = (none, some (GroupError.UnknownGroupError x)) := by
  rcases r with ⟨_ | n, _ | e⟩
  · simp [nameLookupOk] at h
  · cases e <;> simp [nameLookupOk] at h
    exact Or.inr ⟨_, rfl⟩
  · exact Or.inl ⟨n, rfl⟩
  · simp [nameLookupOk] at h

theorem gidLookupOk_cases (r : Option UserGroup × Option GroupError)
    (h : gidLookupOk r = true) :
    (∃ grp, r = (some grp, none)) ∨ ∃ x, r = (none, some (GroupError.UnknownGroupIdError x)) := by
  rcases r with ⟨_ | n, _ | e⟩
  · simp [gidLookupOk] at h
  · cases e <;> simp [gidLookupOk] at h
    exact Or.inr ⟨_, rfl⟩
  · exact Or.inl ⟨n, rfl⟩
  · simp [gidLookupOk] at h

theorem differentGroups_ne (n i : UserGroup) (h : n ≠ i) :
    differentGroups (some n) (some i) = some true := by
  unfold differentGroups
  by_cases hnm : n.Name = i.Name
  · have hgd : n.Gid ≠ i.Gid := by
      intro hgd
      apply h
      cases n; cases i; simp_all
    simp [hnm, hgd]
  · simp [hnm]

theorem differentGroups_self (n : UserGroup) :
    differentGroups (some n) (some n) = some false := by
  simp [differentGroups]

theorem Check_levels (g : Group) (zero : StatusLevel)
    (hs : g.State = StatePresent ∨ g.State = StateAbsent)
    (hn : nameLookupOk (g.system.LookupGroup g.Name) = true)
    (hg : gidLookupOk (g.system.LookupGroupID g.GID) = true) :
    (g.Check zero).calls = [] ∧
    (g.Check zero).result.map (fun r => (r.1.WarningLevel, r.1.WillChange, r.2)) =
      some (checkLevel g.State (g.system.LookupGroup g.Name).1 (g.system.LookupGroupID g.GID).1,
        decide (checkLevel g.State (g.system.LookupGroup g.Name).1
          (g.system.LookupGroupID g.GID).1 = StatusLevel.StatusWillChange), none) := by
  have hpa : StatePresent ≠ StateAbsent := by decide
  rcases nameLookupOk_cases _ hn with ⟨n, hL⟩ | ⟨x, hL⟩ <;>
    rcases gidLookupOk_cases _ hg with ⟨i, hG⟩ | ⟨y, hG⟩ <;>
    rcases hs with hs | hs
  · by_cases hni : n = i
    · subst hni
      simp [Group.Check, hL, hG, hs, hpa, isUnknownGroupError, isUnknownGroupIdError,
        differentGroups_self, sameGroup, Status.empty, checkLevel]
    · simp [Group.Check, hL, hG, hs, hpa, isUnknownGroupError, isUnknownGroupIdError,
        differentGroups_ne n i hni, sameGroup, Status.empty, checkLevel, hni]
  · by_cases hni : n = i
    · subst hni
      simp [Group.Check, hL, hG, hs, hpa, hpa.symm, isUnknownGroupError, isUnknownGroupIdError,
        differentGroups_self, sameGroup, Status.empty, checkLevel]
    · simp [Group.Check, hL, hG, hs, hpa, hpa.symm, isUnknownGroupError, isUnknownGroupIdError,
        differentGroups_ne n i hni, sameGroup, Status.empty, checkLevel, hni]
  all_goals
    simp [Group.Check, hL, hG, hs, hpa, hpa.symm, isUnknownGroupError, isUnknownGroupIdError,
      sameGroup, Status.empty, checkLevel]

theorem sameGroup_iff (a b : Option UserGroup) :
    sameGroup a b = true ↔ ∃ grp, a = some grp ∧ b = some grp := by
  rcases a with _ | n <;> rcases b with _ | i <;> simp [sameGroup, eq_comm]

theorem checkLevel_present (a b : Option UserGroup) :
    (checkLevel StatePresent a b = StatusLevel.StatusWillChange ↔ a = none ∧ b = none) ∧
    (checkLevel StatePresent a b = StatusLevel.StatusNoChange ↔
      ∃ grp, a = some grp ∧ b = some grp) ∧
    (checkLevel StatePresent a b = StatusLevel.StatusFatal ↔
      ¬ (a = none ∧ b = none) ∧ ¬ ∃ grp, a = some grp ∧ b = some grp) := by
  rw [← sameGroup_iff]
  rcases a with _ | n <;> rcases b with _ | i
  · simp [checkLevel, sameGroup]
  · simp [checkLevel, sameGroup]
  · simp [checkLevel, sameGroup]
  · by_cases h : n = i <;> simp [checkLevel, sameGroup, h]

theorem checkLevel_absent (a b : Option UserGroup) :
    (checkLevel StateAbsent a b = StatusLevel.StatusWillChange ↔
      ∃ grp, a = some grp ∧ b = some grp) ∧
    (checkLevel StateAbsent a b = StatusLevel.StatusNoChange ↔ a = none ∧ b = none) ∧
    (checkLevel StateAbsent a b = StatusLevel.StatusFatal ↔
      ¬ (a = none ∧ b = none) ∧ ¬ ∃ grp, a = some grp ∧ b = some grp) := by
  have hpa : StateAbsent ≠ StatePresent := by decide
  rw [← sameGroup_iff]
  rcases a with _ | n <;> rcases b with _ | i
  · simp [checkLevel, sameGroup, hpa]
  · simp [checkLevel, sameGroup, hpa]
  · simp [checkLevel, sameGroup, hpa]
  · by_cases h : n = i <;> simp [checkLevel, sameGroup, h, hpa]

/-- C18: for the state `present` or `absent` and lookups that follow their
contract, `Check` returns a status and a nil error, makes no changing call,
and its warning level is decided by the lookups alone. For `present` it is
`StatusWillChange` exactly when neither name nor gid is found,
`StatusNoChange` exactly when both lookups find the same group, and
`StatusFatal` in every other case; for `absent` it is `StatusWillChange`
exactly when both find the same group, `StatusNoChange` exactly when neither
is found, and `StatusFatal` otherwise. `WillChange` is set exactly with
`StatusWillChange`. -/
theorem Check_decision_table (g : Group) (zero : StatusLevel)
    (hs : g.State = StatePresent ∨ g.State = StateAbsent)
    (hn : nameLookupOk (g.system.LookupGroup g.Name) = true)
    (hg : gidLookupOk (g.system.LookupGroupID g.GID) = true) :
    ∃ status, g.Check zero = { result := some (status, none), calls := [] } ∧
      (status.WillChange = true ↔ status.WarningLevel = StatusLevel.StatusWillChange) ∧
      (g.State = StatePresent →
        (status.WarningLevel = StatusLevel.StatusWillChange ↔
          (g.system.LookupGroup g.Name).1 = none ∧ (g.system.LookupGroupID g.GID).1 = none) ∧
        (status.WarningLevel = StatusLevel.StatusNoChange ↔
          ∃ grp, (g.system.LookupGroup g.Name).1 = some grp ∧
            (g.system.LookupGroupID g.GID).1 = some grp) ∧
        (status.WarningLevel = StatusLevel.StatusFatal ↔
          ¬ ((g.system.LookupGroup g.Name).1 = none ∧
              (g.system.LookupGroupID g.GID).1 = none) ∧
          ¬ ∃ grp, (g.system.LookupGroup g.Name).1 = some grp ∧
            (g.system.LookupGroupID g.GID).1 = some grp)) ∧
      (g.State = StateAbsent →
        (status.WarningLevel = StatusLevel.StatusWillChange ↔
          ∃ grp, (g.system.LookupGroup g.Name).1 = some grp ∧
            (g.system.LookupGroupID g.GID).1 = some grp) ∧
        (status.WarningLevel = StatusLevel.StatusNoChange ↔
          (g.system.LookupGroup g.Name).1 = none ∧ (g.system.LookupGroupID g.GID).1 = none) ∧
        (status.WarningLevel = StatusLevel.StatusFatal ↔
          ¬ ((g.system.LookupGroup g.Name).1 = none ∧
              (g.system.LookupGroupID g.GID).1 = none) ∧
          ¬ ∃ grp, (g.system.LookupGroup g.Name).1 = some grp ∧
            (g.system.LookupGroupID g.GID).1 = some grp)) := by
  obtain ⟨hcalls, hres⟩ := Check_levels g zero hs hn hg
  cases hr : (g.Check zero).result with
  | none => rw [hr] at hres; simp at hres
  | some r =>
    obtain ⟨status, err⟩ := r
    rw [hr] at hres
    simp only [Option.map_some', Option.some.injEq, Prod.mk.injEq] at hres
    obtain ⟨hlvl, hwill, herr⟩ := hres
    subst herr
    refine ⟨status, ?_, ?_, fun hp => ?_, fun ha => ?_⟩
    · cases hc : g.Check zero with
      | mk result calls =>
        rw [hc] at hr hcalls
        simp only at hr hcalls
        rw [hr, hcalls]
    · rw [hwill, hlvl]
      simp
    · rw [hlvl, hp]
      exact checkLevel_present _ _
    · rw [hlvl, ha]
      exact checkLevel_absent _ _

/-- Scenario for C18: the group `wheel` exists with gid 10; to be present it
needs no change, to be absent it will change. -/
theorem Check_decision_table_witness :
    ((wheelGroup StatePresent (demoSystem [{ Gid := "10", Name := "wheel" }])).Check
        StatusLevel.StatusNoChange).result.map (fun r => (r.1.WarningLevel, r.2)) =
      some (StatusLevel.StatusNoChange, none) ∧
    ∃ status,
      (wheelGroup StateAbsent (demoSystem [{ Gid := "10", Name := "wheel" }])).Check
          StatusLevel.StatusNoChange = { result := some (status, none), calls := [] } ∧
        (status.WillChange = true ↔ status.WarningLevel = StatusLevel.StatusWillChange) :=
  ⟨by decide,
   (Check_decision_table (wheelGroup StateAbsent (demoSystem [{ Gid := "10", Name := "wheel" }]))
      StatusLevel.StatusNoChange (Or.inr rfl) (by decide) (by decide)).imp
     fun _ h => ⟨h.1, h.2.1⟩⟩

theorem contract_supported (g : Group)
    (hn : nameLookupOk (g.system.LookupGroup g.Name) = true)
    (hg : gidLookupOk (g.system.LookupGroupID g.GID) = true) :
    (g.system.LookupGroup g.Name).2 ≠ some GroupError.ErrUnsupported ∧
    (g.system.LookupGroupID g.GID).2 ≠ some GroupError.ErrUnsupported ∧
    (isUnknownGroupError (g.system.LookupGroup g.Name).2 = true ↔
      (g.system.LookupGroup g.Name).1 = none) ∧
    (isUnknownGroupIdError (g.system.LookupGroupID g.GID).2 = true ↔
      (g.system.LookupGroupID g.GID).1 = none) := by
  rcases nameLookupOk_cases _ hn with ⟨n, hL⟩ | ⟨x, hL⟩ <;>
    rcases gidLookupOk_cases _ hg with ⟨i, hG⟩ | ⟨y, hG⟩ <;>
    simp [hL, hG, isUnknownGroupError, isUnknownGroupIdError]

theorem Apply_present (g : Group) (zero : StatusLevel) (hp : g.State = StatePresent)
    (hn : (g.system.LookupGroup g.Name).2 ≠ some GroupError.ErrUnsupported)
    (hg : (g.system.LookupGroupID g.GID).2 ≠ some GroupError.ErrUnsupported) :
    (isUnknownGroupError (g.system.LookupGroup g.Name).2 = true ∧
        isUnknownGroupIdError (g.system.LookupGroupID g.GID).2 = true →
      (g.Apply zero).calls = [SysCall.AddGroup g.Name g.GID]) ∧
    (¬ (isUnknownGroupError (g.system.LookupGroup g.Name).2 = true ∧
        isUnknownGroupIdError (g.system.LookupGroupID g.GID).2 = true) →
      g.Apply zero =
        { result := some ({ Status.empty zero with WarningLevel := StatusLevel.StatusFatal },
            some (GroupError.other
              ("will not attempt add: group " ++ g.Name ++ " with gid " ++ g.GID))),
          calls := [] }) := by
  constructor
  · intro h
    cases hadd : g.system.AddGroup g.Name g.GID <;>
      simp [Group.Apply, hp, hn, hg, h.1, h.2, hadd]
  · intro h
    have h2 : (isUnknownGroupError (g.system.LookupGroup g.Name).2 &&
        isUnknownGroupIdError (g.system.LookupGroupID g.GID).2) = false := by
      simpa using h
    simp [Group.Apply, hp, hn, hg, h2]

theorem Apply_absent (g : Group) (zero : StatusLevel) (ha : g.State = StateAbsent)
    (hn : (g.system.LookupGroup g.Name).2 ≠ some GroupError.ErrUnsupported)
    (hg : (g.system.LookupGroupID g.GID).2 ≠ some GroupError.ErrUnsupported) :
    (sameGroup (g.system.LookupGroup g.Name).1 (g.system.LookupGroupID g.GID).1 = true →
      (g.Apply zero).calls = [SysCall.DelGroup g.Name]) ∧
    (sameGroup (g.system.LookupGroup g.Name).1 (g.system.LookupGroupID g.GID).1 = false →
      g.Apply zero =
        { result := some ({ Status.empty zero with WarningLevel := StatusLevel.StatusFatal },
            some (GroupError.other
              ("will not attempt delete: group " ++ g.Name ++ " with gid " ++ g.GID))),
          calls := [] }) := by
  have hpa : StateAbsent ≠ StatePresent := by decide
  constructor
  · intro h
    cases hdel : g.system.DelGroup g.Name <;>
      simp [Group.Apply, ha, hpa, hn, hg, h, hdel]
  · intro h
    simp [Group.Apply, ha, hpa, hn, hg, h]

theorem Apply_other_state (g : Group) (zero : StatusLevel) (hp : g.State ≠ StatePresent)
    (ha : g.State ≠ StateAbsent)
    (hn : (g.system.LookupGroup g.Name).2 ≠ some GroupError.ErrUnsupported)
    (hg : (g.system.LookupGroupID g.GID).2 ≠ some GroupError.ErrUnsupported) :
    g.Apply zero =
      { result := some ({ Status.empty zero with WarningLevel := StatusLevel.StatusFatal },
          some (GroupError.other ("group: unrecognized state " ++ g.State))),
        calls := [] } ∧
    g.Check zero =
      { result := some ({ Status.empty zero with WarningLevel := StatusLevel.StatusFatal },
          some (GroupError.other ("group: unrecognized state " ++ g.State))),
        calls := [] } := by
  constructor
  · simp [Group.Apply, hp, ha, hn, hg]
  · simp [Group.Check, hp, ha, hn, hg]

theorem Check_will_change (g : Group) (zero : StatusLevel)
    (hs : g.State = StatePresent ∨ g.State = StateAbsent)
    (hn : nameLookupOk (g.system.LookupGroup g.Name) = true)
    (hg : gidLookupOk (g.system.LookupGroupID g.GID) = true) :
    (∃ status, (g.Check zero).result = some (status, none) ∧ status.WillChange = true) ↔
      checkLevel g.State (g.system.LookupGroup g.Name).1 (g.system.LookupGroupID g.GID).1 =
        StatusLevel.StatusWillChange := by
  obtain ⟨_, hres⟩ := Check_levels g zero hs hn hg
  cases hr : (g.Check zero).result with
  | none => rw [hr] at hres; simp at hres
  | some r =>
    obtain ⟨status, err⟩ := r
    rw [hr] at hres
    simp only [Option.map_some', Option.some.injEq, Prod.mk.injEq] at hres
    obtain ⟨hlvl, hwill, herr⟩ := hres
    subst herr
    constructor
    · rintro ⟨st, hst, hw⟩
      simp only [Option.some.injEq, Prod.mk.injEq, and_true] at hst
      subst hst
      rw [hwill] at hw
      simpa using hw
    · intro h
      exact ⟨status, rfl, by rw [hwill]; simpa using h⟩

/-- C19: for every group and lookups that follow their contract, `Apply`
makes a changing call exactly when `Check` on the same lookups returns a
status with `WillChange` set and no error; the call is then the one call
`AddGroup(Name, GID)` for the state `present` or `DelGroup(Name)` for the
state `absent`. In every other case `Apply` makes no changing call and
returns a `StatusFatal` status with an error. `Apply` never makes more than
one changing call. -/
theorem Check_Apply_agree (g : Group) (zero : StatusLevel)
    (hn : nameLookupOk (g.system.LookupGroup g.Name) = true)
    (hg : gidLookupOk (g.system.LookupGroupID g.GID) = true) :
    ((g.Apply zero).calls ≠ [] ↔
      ∃ status, (g.Check zero).result = some (status, none) ∧ status.WillChange = true) ∧
    ((g.Apply zero).calls ≠ [] →
      (g.State = StatePresent ∧ (g.Apply zero).calls = [SysCall.AddGroup g.Name g.GID]) ∨
      (g.State = StateAbsent ∧ (g.Apply zero).calls = [SysCall.DelGroup g.Name])) ∧
    ((g.Apply zero).calls = [] →
      ∃ status err, (g.Apply zero).result = some (status, some err) ∧
        status.WarningLevel = StatusLevel.StatusFatal) ∧
    (g.Apply zero).calls.length ≤ 1 := by
  obtain ⟨hsn, hsg, hun, hug⟩ := contract_supported g hn hg
  by_cases hp : g.State = StatePresent
  · have hcw := Check_will_change g zero (Or.inl hp) hn hg
    rw [hp, (checkLevel_present _ _).1] at hcw
    obtain ⟨hadd, hno⟩ := Apply_present g zero hp hsn hsg
    by_cases hm : isUnknownGroupError (g.system.LookupGroup g.Name).2 = true ∧
        isUnknownGroupIdError (g.system.LookupGroupID g.GID).2 = true
    · have hc := hadd hm
      rw [hc]
      refine ⟨⟨fun _ => hcw.2 ⟨hun.1 hm.1, hug.1 hm.2⟩, fun _ => by simp⟩,
        fun _ => Or.inl ⟨hp, rfl⟩, fun h => by simp at h, by simp⟩
    · have hc := hno hm
      rw [hc]
      refine ⟨⟨fun h => absurd rfl h, fun h => ?_⟩, fun h => absurd rfl h,
        fun _ => ⟨_, _, rfl, rfl⟩, by simp⟩
      exact absurd ⟨hun.2 (hcw.1 h).1, hug.2 (hcw.1 h).2⟩ hm
  · by_cases ha : g.State = StateAbsent
    · have hcw := Check_will_change g zero (Or.inr ha) hn hg
      rw [ha, (checkLevel_absent _ _).1, ← sameGroup_iff] at hcw
      obtain ⟨hdel, hno⟩ := Apply_absent g zero ha hsn hsg
      by_cases hm : sameGroup (g.system.LookupGroup g.Name).1 (g.system.LookupGroupID g.GID).1
          = true
      · have hc := hdel hm
        rw [hc]
        refine ⟨⟨fun _ => hcw.2 hm, fun _ => by simp⟩,
          fun _ => Or.inr ⟨ha, rfl⟩, fun h => by simp at h, by simp⟩
      · have hc := hno (by simpa using hm)
        rw [hc]
        refine ⟨⟨fun h => absurd rfl h, fun h => absurd (hcw.1 h) hm⟩, fun h => absurd rfl h,
          fun _ => ⟨_, _, rfl, rfl⟩, by simp⟩
    · obtain ⟨hA, hC⟩ := Apply_other_state g zero hp ha hsn hsg
      rw [hA, hC]
      refine ⟨⟨fun h => absurd rfl h, fun h => ?_⟩, fun h => absurd rfl h,
        fun _ => ⟨_, _, rfl, rfl⟩, by simp⟩
      obtain ⟨st, hst, _⟩ := h
      simp at hst

/-- Scenario for C19: the group `wheel` does not exist and is to be present,
`Check` announces the change and `Apply` adds the group. -/
theorem Check_Apply_agree_witness :
    ((wheelGroup StatePresent (demoSystem [])).Apply StatusLevel.StatusNoChange).calls =
      [SysCall.AddGroup "wheel" "10"] ∧
    (((wheelGroup StatePresent (demoSystem [])).Apply StatusLevel.StatusNoChange).calls ≠ [] ↔
      ∃ status,
        ((wheelGroup StatePresent (demoSystem [])).Check StatusLevel.StatusNoChange).result =
          some (status, none) ∧ status.WillChange = true) :=
  ⟨by decide,
   (Check_Apply_agree (wheelGroup StatePresent (demoSystem [])) StatusLevel.StatusNoChange
      (by decide) (by decide)).1⟩

/-! ## Running the resolver again -/

theorem VertexSplit_congr (g1 g2 : Graph) (h : g1.vertices = g2.vertices) (s : String) :
    VertexSplit g1 s = VertexSplit g2 s := by
  unfold VertexSplit Graph.Contains Graph.ids
  rw [h]

theorem resolveCalls_congr (g1 g2 : Graph) (h : g1.vertices = g2.vertices)
    (calls nodeRefs : List String) (out : Slice) :
    resolveCalls g1 calls nodeRefs out = resolveCalls g2 calls nodeRefs out := by
  induction calls generalizing nodeRefs out with
  | nil => rfl
  | cons c rest ih =>
    rw [resolveCalls, resolveCalls, VertexSplit_congr g1 g2 h]
    cases VertexSplit g2 ("root/" ++ c) with
    | none => rfl
    | some p =>
      simp only
      rw [ih, ih]

theorem getXrefs_congr (T : TemplateEngine) (g1 g2 : Graph) (h : g1.vertices = g2.vertices) :
    getXrefs T g1 = getXrefs T g2 := by
  funext node
  unfold getXrefs
  cases node.GetStrings with
  | error e => rfl
  | ok strings =>
    simp only
    cases recordCalls T RefFuncName strings Slice.nil with
    | mk calls err =>
      cases err with
      | some e => rfl
      | none => exact resolveCalls_congr g1 g2 h _ _ _

theorem resolveVertex_congr (T : TemplateEngine) (g1 g2 : Graph)
    (h : g1.vertices = g2.vertices) : resolveVertex T g1 = resolveVertex T g2 := by
  funext id out
  unfold resolveVertex
  rw [getXrefs_congr T g1 g2 h]

theorem Get_congr (g1 g2 : Graph) (h : g1.vertices = g2.vertices) (id : String) :
    g1.Get id = g2.Get id := by
  rw [Graph.Get, Graph.Get, h]

theorem connectDeps_noop (id : String) (deps : List String) (out : Graph)
    (h : ∀ r ∈ deps, (id, SiblingID id r) ∈ out.edges) : connectDeps id deps out = out := by
  induction deps with
  | nil => rfl
  | cons d ds ih =>
    have hd : out.Connect id (SiblingID id d) = out := by
      unfold Graph.Connect
      rw [if_pos (h d (List.mem_cons_self _ _))]
    rw [connectDeps, hd]
    exact ih (fun r hr => h r (List.mem_cons_of_mem _ hr))

theorem runGenerators_noop (id : String) (node : Node)
    (gens : List (Node → Slice × Option GoError)) (out : Graph)
    (h : ∀ gen ∈ gens, (gen node).2 = none ∧
      ∀ r ∈ (gen node).1.toList, (id, SiblingID id r) ∈ out.edges) :
    runGenerators id node gens out = Except.ok out := by
  induction gens with
  | nil => rfl
  | cons gen rest ih =>
    obtain ⟨hnone, hedges⟩ := h gen (List.mem_cons_self _ _)
    rw [runGenerators]
    cases hg : gen node with
    | mk deps err =>
      rw [hg] at hnone hedges
      simp only at hnone hedges
      subst hnone
      simp only
      rw [connectDeps_noop id deps.toList out hedges]
      exact ih (fun gen2 hg2 => h gen2 (List.mem_cons_of_mem _ hg2))

theorem walk_resolve_noop (T : TemplateEngine) (g : Graph) (ids : List String) (out : Graph)
    (h : ∀ id ∈ ids, id ≠ "root" → ∃ node, out.Get id = Value.node node ∧
      ∀ gen ∈ [getDepends, getParams T, getXrefs T g], (gen node).2 = none ∧
        ∀ r ∈ (gen node).1.toList, (id, SiblingID id r) ∈ out.edges) :
    Graph.walk (resolveVertex T g) ids out = Except.ok out := by
  induction ids with
  | nil => rfl
  | cons id rest ih =>
    have hstep : resolveVertex T g id out = Except.ok out := by
      unfold resolveVertex
      by_cases hid : id = "root"
      · rw [if_pos hid]
      · rw [if_neg hid]
        obtain ⟨node, hget, hall⟩ := h id (List.mem_cons_self _ _) hid
        rw [hget]
        exact runGenerators_noop id node _ out hall
    rw [Graph.walk, hstep]
    exact ih (fun id2 hid2 => h id2 (List.mem_cons_of_mem _ hid2))

theorem connectDeps_edges (id : String) (deps : List String) (out : Graph)
    (e : String × String) :
    e ∈ (connectDeps id deps out).edges ↔ e ∈ out.edges ∨ ∃ r ∈ deps, e = (id, SiblingID id r) := by
  induction deps generalizing out with
  | nil => simp [connectDeps]
  | cons d ds ih =>
    rw [connectDeps, ih, mem_Connect, or_assoc]
    simp only [List.mem_cons, exists_eq_or_imp]

theorem runGenerators_total (id : String) (node : Node)
    (gens : List (Node → Slice × Option GoError)) (out : Graph)
    (h : ∀ gen ∈ gens, (gen node).2 = none) :
    ∃ res, runGenerators id node gens out = Except.ok res ∧ res.vertices = out.vertices ∧
      ∀ e, e ∈ res.edges ↔ e ∈ out.edges ∨
        ∃ gen ∈ gens, ∃ r ∈ (gen node).1.toList, e = (id, SiblingID id r) := by
  induction gens generalizing out with
  | nil => exact ⟨out, rfl, rfl, by simp⟩
  | cons gen rest ih =>
    have hnone := h gen (List.mem_cons_self _ _)
    obtain ⟨res, hres, hv, he⟩ := ih (connectDeps id (gen node).1.toList out)
      (fun gen2 hg2 => h gen2 (List.mem_cons_of_mem _ hg2))
    refine ⟨res, ?_, by rw [hv, connectDeps_vertices], ?_⟩
    · rw [runGenerators]
      cases hg : gen node with
      | mk deps err =>
        rw [hg] at hnone hres
        simp only at hnone hres
        subst hnone
        exact hres
    · intro e
      rw [he, connectDeps_edges, or_assoc]
      simp only [List.mem_cons, exists_eq_or_imp]

theorem walk_resolve_total (T : TemplateEngine) (g : Graph) (ids : List String) (out : Graph)
    (h : ∀ id ∈ ids, id ≠ "root" → ∃ node, out.Get id = Value.node node ∧
      ∀ gen ∈ [getDepends, getParams T, getXrefs T g], (gen node).2 = none) :
    ∃ res, Graph.walk (resolveVertex T g) ids out = Except.ok res ∧
      res.vertices = out.vertices ∧
      ∀ e, e ∈ res.edges ↔ e ∈ out.edges ∨
        ∃ id ∈ ids, id ≠ "root" ∧ ∃ node, out.Get id = Value.node node ∧
          ∃ gen ∈ [getDepends, getParams T, getXrefs T g],
            ∃ r ∈ (gen node).1.toList, e = (id, SiblingID id r) := by
  induction ids generalizing out with
  | nil => exact ⟨out, rfl, rfl, by simp⟩
  | cons id rest ih =>
    have hstep : ∃ mid, resolveVertex T g id out = Except.ok mid ∧
        mid.vertices = out.vertices ∧
        ∀ e, e ∈ mid.edges ↔ e ∈ out.edges ∨
          (id ≠ "root" ∧ ∃ node, out.Get id = Value.node node ∧
            ∃ gen ∈ [getDepends, getParams T, getXrefs T g],
              ∃ r ∈ (gen node).1.toList, e = (id, SiblingID id r)) := by
      unfold resolveVertex
      by_cases hid : id = "root"
      · rw [if_pos hid]
        exact ⟨out, rfl, rfl, fun e => by simp [hid]⟩
      · rw [if_neg hid]
        obtain ⟨node, hget, hall⟩ := h id (List.mem_cons_self _ _) hid
        rw [hget]
        obtain ⟨mid, hmid, hv, he⟩ := runGenerators_total id node _ out hall
        refine ⟨mid, hmid, hv, fun e => ?_⟩
        rw [he]
        constructor
        · rintro (h1 | h1)
          · exact Or.inl h1
          · exact Or.inr ⟨hid, node, rfl, h1⟩
        · rintro (h1 | ⟨_, node2, hn2, h1⟩)
          · exact Or.inl h1
          · injection hn2 with hn3
            subst hn3
            exact Or.inr h1
    obtain ⟨mid, hmid, hv, he⟩ := hstep
    have hget : ∀ x, mid.Get x = out.Get x := fun x => Get_congr mid out hv x
    obtain ⟨res, hres, hv2, he2⟩ := ih mid (by
      intro id2 hid2 hne
      obtain ⟨node, hg2, hall⟩ := h id2 (List.mem_cons_of_mem _ hid2) hne
      exact ⟨node, by rw [hget, hg2], hall⟩)
    refine ⟨res, by rw [Graph.walk, hmid]; exact hres, hv2.trans hv, fun e => ?_⟩
    rw [he2, he, or_assoc]
    simp only [hget, List.mem_cons, exists_eq_or_imp]
/-- C12: when `ResolveDependencies` succeeds on a graph, running it on the
graph it returned succeeds and returns that graph again, edge for edge.
Connecting an edge that is already there leaves the graph as it is. The edges
added depend on the vertices and their payloads only: on every graph with the
same vertices `ResolveDependencies` succeeds as well and adds the same
edges. -/
theorem ResolveDependencies_idempotent (T : TemplateEngine) (g out : Graph)
    (h : ResolveDependencies T g = Except.ok out) :
    ResolveDependencies T out = Except.ok out ∧
    (∀ (g1 : Graph) src dst, (src, dst) ∈ g1.edges → g1.Connect src dst = g1) ∧
    ∃ added : String × String → Prop,
      (∀ e, e ∈ out.edges ↔ e ∈ g.edges ∨ added e) ∧
      ∀ g2 : Graph, g2.vertices = g.vertices →
        ∃ out2, ResolveDependencies T g2 = Except.ok out2 ∧
          out2.vertices = g2.vertices ∧ ∀ e, e ∈ out2.edges ↔ e ∈ g2.edges ∨ added e := by
  obtain ⟨hv, _, hall⟩ := walk_resolve_ok T g g.ids g out h
  have hids : ∀ g2 : Graph, g2.vertices = g.vertices → g2.ids = g.ids := by
    intro g2 h2
    rw [Graph.ids, Graph.ids, h2]
  refine ⟨?_, ?_, ?_⟩
  · unfold ResolveDependencies Graph.Transform
    rw [resolveVertex_congr T out g hv, hids out hv]
    apply walk_resolve_noop
    intro id hid hne
    obtain ⟨node, hget, hgen⟩ := hall id hid hne
    exact ⟨node, by rw [Get_congr out g hv, hget], hgen⟩
  · intro g1 src dst he
    unfold Graph.Connect
    rw [if_pos he]
  · refine ⟨fun e => ∃ id ∈ g.ids, id ≠ "root" ∧ ∃ node, g.Get id = Value.node node ∧
      ∃ gen ∈ [getDepends, getParams T, getXrefs T g],
        ∃ r ∈ (gen node).1.toList, e = (id, SiblingID id r), ?_, ?_⟩
    · obtain ⟨res, hres, _, he⟩ := walk_resolve_total T g g.ids g (by
        intro id hid hne
        obtain ⟨node, hget, hgen⟩ := hall id hid hne
        exact ⟨node, hget, fun gen hg => (hgen gen hg).1⟩)
      have : res = out := by
        have h2 : Except.ok res = (Except.ok out : Except GoError Graph) := by
          rw [← hres]
          exact h
        injection h2
      subst this
      exact he
    · intro g2 h2
      obtain ⟨res, hres, hv2, he⟩ := walk_resolve_total T g g.ids g2 (by
        intro id hid hne
        obtain ⟨node, hget, hgen⟩ := hall id hid hne
        exact ⟨node, by rw [Get_congr g2 g h2, hget], fun gen hg => (hgen gen hg).1⟩)
      refine ⟨res, ?_, hv2, fun e => ?_⟩
      · unfold ResolveDependencies Graph.Transform
        rw [resolveVertex_congr T g2 g h2, hids g2 h2]
        exact hres
      · rw [he]
        simp only [Get_congr g2 g h2]

/-- Scenario for C12: the graph of the scenarios, resolved twice. -/
theorem ResolveDependencies_idempotent_witness :
    ∃ out, ResolveDependencies demoEngine flatGraph = Except.ok out ∧
      ResolveDependencies demoEngine out = Except.ok out := by
  cases h : ResolveDependencies demoEngine flatGraph with
  | error e =>
    have h2 : (ResolveDependencies demoEngine flatGraph).toOption.isSome = true := by decide
    rw [h] at h2
    simp [Except.toOption] at h2
  | ok out => exact ⟨out, rfl, (ResolveDependencies_idempotent demoEngine flatGraph out h).1⟩

/-! ## Errors of the harvesting functions -/

theorem toEngine_parses (L : TemplateLibrary) (fn s : String) :
    parses L.toEngine fn s = true ↔ L.Parse fn s = none := by
  unfold parses TemplateLibrary.toEngine
  cases h : L.Parse fn s <;> simp [h]

theorem toEngine_error (L : TemplateLibrary) (fn s : String) (e : GoError) :
    L.toEngine.run fn s = Except.error e ↔ L.Parse fn s = some e := by
  unfold TemplateLibrary.toEngine
  cases h : L.Parse fn s <;> simp [h]

theorem toEngine_recorded (L : TemplateLibrary) (fn : String) (strings : List String)
    (h : ∀ s ∈ strings, L.Parse fn s = none) :
    recorded L.toEngine fn strings = strings.flatMap (fun s => (L.Execute fn s).1) := by
  induction strings with
  | nil => rfl
  | cons s rest ih =>
    rw [recorded_cons, ih (fun s hs => h s (List.mem_cons_of_mem _ hs)), List.flatMap_cons]
    have hs := h s (List.mem_cons_self _ _)
    simp [TemplateLibrary.toEngine, hs]

theorem recordCalls_none_iff (T : TemplateEngine) (fn : String) (strings : List String)
    (list : Slice) :
    (recordCalls T fn strings list).2 = none ↔ ∀ s ∈ strings, parses T fn s = true := by
  constructor
  · intro h s hs
    cases hp : parses T fn s with
    | true => rfl
    | false =>
      exfalso
      induction strings generalizing list with
      | nil => simp at hs
      | cons a rest ih =>
        rw [recordCalls] at h
        cases hr : T.run fn a with
        | error e => rw [hr] at h; simp at h
        | ok calls =>
          rw [hr] at h
          rcases List.mem_cons.1 hs with rfl | hs2
          · simp [parses, hr] at hp
          · exact ih _ h hs2
  · intro h
    exact recordCalls_parsed T fn strings list (parses_run T fn strings h)

theorem getParams_error_iff (T : TemplateEngine) (node : Node) :
    (getParams T node).2 ≠ none ↔
      (∃ e, node.GetStrings = Except.error e) ∨
      ∃ strings, node.GetStrings = Except.ok strings ∧ ∃ s ∈ strings, parses T "param" s = false := by
  unfold getParams
  cases hs : node.GetStrings with
  | error e => simp
  | ok strings =>
    simp only [Except.ok.injEq, exists_eq_left', false_or, reduceCtorEq, exists_false]
    have hn := recordCalls_none_iff T "param" strings Slice.nil
    cases hrc : recordCalls T "param" strings Slice.nil with
    | mk out err =>
      rw [hrc] at hn
      cases err with
      | some e =>
        simp only at hn ⊢
        have : ¬ ∀ s ∈ strings, parses T "param" s = true := fun h => by
          have := hn.2 h
          simp at this
        push_neg at this
        simpa using this
      | none =>
        have := hn.1 rfl
        simp only [ne_eq, not_true_eq_false, false_iff, not_exists, not_and]
        intro s hs
        simp [this s hs]

theorem getParams_error_source (T : TemplateEngine) (node : Node) (e : GoError)
    (h : (getParams T node).2 = some e) :
    node.GetStrings = Except.error e ∨
      ∃ strings, node.GetStrings = Except.ok strings ∧ ∃ s ∈ strings,
        T.run "param" s = Except.error e := by
  unfold getParams at h
  cases hs : node.GetStrings with
  | error e2 =>
    rw [hs] at h
    simp only [Option.some.injEq] at h
    exact Or.inl (by rw [h])
  | ok strings =>
    rw [hs] at h
    simp only at h
    cases hrc : recordCalls T "param" strings Slice.nil with
    | mk out err =>
      rw [hrc] at h
      cases err with
      | none => simp at h
      | some e2 =>
        simp only [Option.some.injEq] at h
        subst h
        exact Or.inr ⟨strings, rfl, recordCalls_error T "param" strings Slice.nil out e2 hrc⟩

theorem getXrefs_error_iff (T : TemplateEngine) (g : Graph) (node : Node) :
    (getXrefs T g node).2 ≠ none ↔
      (∃ e, node.GetStrings = Except.error e) ∨
      ∃ strings, node.GetStrings = Except.ok strings ∧
        ((∃ s ∈ strings, parses T RefFuncName s = false) ∨
          ∃ c ∈ recorded T RefFuncName strings, VertexSplit g ("root/" ++ c) = none) := by
  cases hs : node.GetStrings with
  | error e => simp [getXrefs, hs]
  | ok strings =>
    simp only [Except.ok.injEq, exists_eq_left', false_or, reduceCtorEq, exists_false]
    by_cases hp : ∀ s ∈ strings, parses T RefFuncName s = true
    · rw [getXrefs_eq T g node strings hs hp]
      constructor
      · intro herr
        right
        by_contra hno
        push_neg at hno
        exact herr (resolveCalls_ok g _ [] Slice.nil hno).1
      · rintro (⟨s, hs2, hf⟩ | hex)
        · rw [hp s hs2] at hf
          simp at hf
        · obtain ⟨before, c, after, he, hb, hc⟩ := first_unresolved g _ hex
          rw [he, resolveCalls_first g before after [] c Slice.nil hb hc]
          simp
    · have hp2 : ∃ s ∈ strings, parses T RefFuncName s = false := by
        push_neg at hp
        obtain ⟨s, hs2, hf⟩ := hp
        exact ⟨s, hs2, by simpa using hf⟩
      have hn := recordCalls_none_iff T RefFuncName strings Slice.nil
      constructor
      · intro _
        exact Or.inl hp2
      · intro _
        unfold getXrefs
        rw [hs]
        simp only
        cases hrc : recordCalls T RefFuncName strings Slice.nil with
        | mk calls err =>
          rw [hrc] at hn
          cases err with
          | some e => simp
          | none => exact absurd (hn.1 rfl) hp
/-- C14, as stated, fails on both counts. For `getXrefs`: the strings of the
node are read, its one string parses, and `getXrefs` still returns an error,
for the call that does not resolve. For the source string: the string that is
an unclosed action fails to parse, and `getParams` and `getXrefs` return the
error of the parser as it is; its text holds no brace, so the offending
string is not in it. -/
theorem getXrefs_fails_without_parse_error :
    (danglingNode.GetStrings.toOption =
        some ["echo \x7b\x7blookup \"task.nonexistent\"\x7d\x7d"] ∧
      demoLibrary.Parse RefFuncName "echo \x7b\x7blookup \"task.nonexistent\"\x7d\x7d" = none ∧
      (getXrefs demoLibrary.toEngine flatGraph danglingNode).2 =
        some (GoError.message "unresolvable call to task.nonexistent")) ∧
    (unclosedNode.GetStrings.toOption = some ["\x7b\x7b"] ∧
      getParams demoLibrary.toEngine unclosedNode =
        (Slice.nil, some (GoError.message "template: DependencyTemplate:1: unclosed action")) ∧
      getXrefs demoLibrary.toEngine flatGraph unclosedNode =
        (Slice.nil, some (GoError.message "template: DependencyTemplate:1: unclosed action")) ∧
      Char.ofNat 123 ∈ "\x7b\x7b".data ∧
      Char.ofNat 123 ∉ "template: DependencyTemplate:1: unclosed action".data) := by
  decide

/-- C14, amended: `getParams` returns an error exactly when `GetStrings` fails
or some string does not parse as a template, and the error is then the one
`GetStrings` or the template parser returned; `getXrefs` returns an error
exactly in these two cases or when a recorded call does not resolve. An error
raised while a parsed template is executed makes neither fail, and the names
recorded up to it are returned. -/
theorem harvest_errors (L : TemplateLibrary) (g : Graph) (node : Node) :
    ((getParams L.toEngine node).2 ≠ none ↔
      (∃ e, node.GetStrings = Except.error e) ∨
      ∃ strings, node.GetStrings = Except.ok strings ∧
        ∃ s ∈ strings, L.Parse "param" s ≠ none) ∧
    (∀ e, (getParams L.toEngine node).2 = some e →
      node.GetStrings = Except.error e ∨
      ∃ strings, node.GetStrings = Except.ok strings ∧
        ∃ s ∈ strings, L.Parse "param" s = some e) ∧
    ((getXrefs L.toEngine g node).2 ≠ none ↔
      (∃ e, node.GetStrings = Except.error e) ∨
      ∃ strings, node.GetStrings = Except.ok strings ∧
        ((∃ s ∈ strings, L.Parse RefFuncName s ≠ none) ∨
          ∃ c ∈ recorded L.toEngine RefFuncName strings,
            VertexSplit g ("root/" ++ c) = none)) ∧
    (∀ strings, node.GetStrings = Except.ok strings →
      (∀ s ∈ strings, L.Parse "param" s = none) →
      (getParams L.toEngine node).2 = none ∧
      (getParams L.toEngine node).1.toList =
        (strings.flatMap (fun s => (L.Execute "param" s).1)).map
          (fun val => "param." ++ val)) := by
  have hpf : ∀ fn s, parses L.toEngine fn s = false ↔ L.Parse fn s ≠ none := by
    intro fn s
    rw [Ne, ← toEngine_parses]
    simp
  refine ⟨?_, ?_, ?_, ?_⟩
  · rw [getParams_error_iff]
    simp only [hpf]
  · intro e he
    rcases getParams_error_source L.toEngine node e he with h1 | ⟨strings, hs, s, hs2, hr⟩
    · exact Or.inl h1
    · exact Or.inr ⟨strings, hs, s, hs2, (toEngine_error L _ s e).1 hr⟩
  · rw [getXrefs_error_iff]
    simp only [hpf]
  · intro strings hs hp
    have hnone : (getParams L.toEngine node).2 = none := by
      by_contra hne
      rcases (getParams_error_iff L.toEngine node).1 hne with ⟨e, he⟩ | ⟨strings2, hs2, s, hs3, hf⟩
      · rw [hs] at he
        simp at he
      · rw [hs] at hs2
        simp only [Except.ok.injEq] at hs2
        subst hs2
        exact (hpf _ s).1 hf (hp s hs3)
    exact ⟨hnone, by rw [getParams_ok L.toEngine node strings hs hnone,
      toEngine_recorded L "param" strings hp]⟩

/-- Scenario for C14: the execution of the one string of the node fails after
`param "a"`; `getParams` returns `param.a` and no error. -/
theorem harvest_errors_witness :
    (demoLibrary.Execute "param"
        "\x7b\x7bparam \"a\"\x7d\x7d \x7b\x7bsplit\x7d\x7d \x7b\x7bparam \"b\"\x7d\x7d").2 =
      some (GoError.message "error calling split: wrong number of args") ∧
    (getParams demoLibrary.toEngine execErrorNode).2 = none ∧
    (getParams demoLibrary.toEngine execErrorNode).1.toList = ["param.a"] :=
  ⟨by decide,
   ((harvest_errors demoLibrary flatGraph execErrorNode).2.2.2 _ rfl (by decide)).1,
   ((harvest_errors demoLibrary flatGraph execErrorNode).2.2.2 _ rfl (by decide)).2.trans
     (by decide)⟩

/-! ## Failure and termination of unwrapping -/

theorem ResolveTask_fails_iff (w : Obj) :
    ResolveTask w = Unwrapped.returned Obj.nil false ↔ UnwrapFails w := by
  induction w with
  | nil => exact ⟨fun _ => UnwrapFails.nil, fun _ => rfl⟩
  | task name =>
    constructor
    · intro h
      simp [ResolveTask] at h
    · intro h
      cases h
  | wrapper inner ih =>
    rw [ResolveTask, ih]
    constructor
    · exact UnwrapFails.wrapper
    · intro h
      cases h
      assumption
  | nilWrapper =>
    constructor
    · intro h
      simp [ResolveTask] at h
    · intro h
      cases h
  | tasker b inner found ih =>
    cases found with
    | false =>
      exact ⟨fun _ => UnwrapFails.notFound b inner, fun _ => by simp [ResolveTask]⟩
    | true =>
      simp only [ResolveTask, if_true]
      rw [ih]
      constructor
      · exact UnwrapFails.tasker b
      · intro h
        cases h
        assumption
  | other typ => exact ⟨fun _ => UnwrapFails.other typ, fun _ => rfl⟩

theorem ResolveTask_panics_iff (w : Obj) :
    ResolveTask w = Unwrapped.panicked ↔ ReachesNilWrapper w := by
  induction w with
  | nil =>
    constructor
    · intro h
      simp [ResolveTask] at h
    · intro h
      cases h
  | task name =>
    constructor
    · intro h
      simp [ResolveTask] at h
    · intro h
      cases h
  | wrapper inner ih =>
    rw [ResolveTask, ih]
    constructor
    · exact ReachesNilWrapper.wrapper
    · intro h
      cases h
      assumption
  | nilWrapper => exact ⟨fun _ => ReachesNilWrapper.here, fun _ => rfl⟩
  | tasker b inner found ih =>
    cases found with
    | false =>
      constructor
      · intro h
        simp [ResolveTask] at h
      · intro h
        cases h
    | true =>
      simp only [ResolveTask, if_true]
      rw [ih]
      constructor
      · exact ReachesNilWrapper.tasker b
      · intro h
        cases h
        assumption
  | other typ =>
    constructor
    · intro h
      simp [ResolveTask] at h
    · intro h
      cases h

theorem ResolveTask_false (w x : Obj) (h : ResolveTask w = Unwrapped.returned x false) :
    x = Obj.nil := by
  induction w with
  | nil => simp [ResolveTask] at h; exact h.symm
  | task name => simp [ResolveTask] at h
  | wrapper inner ih => rw [ResolveTask] at h; exact ih h
  | nilWrapper => simp [ResolveTask] at h
  | tasker b inner found ih =>
    cases found with
    | false => simp [ResolveTask] at h; exact h.symm
    | true =>
      simp only [ResolveTask, if_true] at h
      exact ih h
  | other typ => simp [ResolveTask] at h; exact h.symm

theorem ResolveTaskFuel_enough (w : Obj) (fuel : Nat) (h : w.layers < fuel) :
    ResolveTaskFuel fuel w = some (ResolveTask w) := by
  induction w generalizing fuel with
  | nil =>
    cases fuel with
    | zero => omega
    | succ n => simp [ResolveTaskFuel, ResolveTask]
  | task name =>
    cases fuel with
    | zero => omega
    | succ n => simp [ResolveTaskFuel, ResolveTask, Obj.isTasker, Obj.isTask]
  | wrapper inner ih =>
    cases fuel with
    | zero => omega
    | succ n =>
      have hn : inner.layers < n := by
        simp only [Obj.layers] at h
        omega
      simp [ResolveTaskFuel, ResolveTask, Obj.isTasker, Obj.GetTask, ih n hn]
  | nilWrapper =>
    cases fuel with
    | zero => omega
    | succ n => simp [ResolveTaskFuel, ResolveTask, Obj.isTasker, Obj.GetTask]
  | tasker b inner found ih =>
    cases fuel with
    | zero => omega
    | succ n =>
      have hn : inner.layers < n := by
        simp only [Obj.layers] at h
        omega
      cases found with
      | false => simp [ResolveTaskFuel, ResolveTask, Obj.isTasker, Obj.GetTask]
      | true => simp [ResolveTaskFuel, ResolveTask, Obj.isTasker, Obj.GetTask, ih n hn]
  | other typ =>
    cases fuel with
    | zero => omega
    | succ n => simp [ResolveTaskFuel, ResolveTask, Obj.isTasker, Obj.isTask]

/-- What `ResolveTask` does on every value. It returns nil and false for a nil
interface, for a `Tasker` whose `GetTask` reports not found, for a value that
is neither `Tasker` nor `Task`, and for `WrapTask(nil)`; it returns nil and
false exactly when unwrapping fails, ends in a nil pointer dereference exactly
when unwrapping reaches a nil `*TaskWrapper`, and returns nil whenever it
returns false. The call-by-call evaluation ends with the same outcome once the
fuel exceeds the number of `Tasker` layers of the value. -/
theorem ResolveTask_outcomes :
    ResolveTask Obj.nil = Unwrapped.returned Obj.nil false ∧
    (∀ isTask inner,
      ResolveTask (Obj.tasker isTask inner false) = Unwrapped.returned Obj.nil false) ∧
    (∀ typ, ResolveTask (Obj.other typ) = Unwrapped.returned Obj.nil false) ∧
    ((WrapTask Obj.nil).GetTask = some (Obj.nil, true) ∧
      ResolveTask (WrapTask Obj.nil) = Unwrapped.returned Obj.nil false) ∧
    (∀ w, ResolveTask w = Unwrapped.returned Obj.nil false ↔ UnwrapFails w) ∧
    (∀ w, ResolveTask w = Unwrapped.panicked ↔ ReachesNilWrapper w) ∧
    (∀ w x, ResolveTask w = Unwrapped.returned x false → x = Obj.nil) ∧
    (∀ w fuel, w.layers < fuel → ResolveTaskFuel fuel w = some (ResolveTask w)) :=
  ⟨rfl, fun _ _ => by simp [ResolveTask], fun _ => rfl, ⟨rfl, rfl⟩, ResolveTask_fails_iff,
    ResolveTask_panics_iff, ResolveTask_false, ResolveTaskFuel_enough⟩

/-- C21: evaluation of `ResolveTask` on a nil `*TaskWrapper`, alone and under a
layer of `WrapTask`. The value is not the nil interface and is a `Tasker`, so
`GetTask` is called on the nil receiver; the run ends in a nil pointer
dereference, in the first call and in the second call respectively, and no
pair is returned. -/
theorem ResolveTask_nil_wrapper :
    Obj.nilWrapper ≠ Obj.nil ∧ Obj.nilWrapper.isTasker = true ∧
    Obj.nilWrapper.GetTask = none ∧
    ResolveTask Obj.nilWrapper = Unwrapped.panicked ∧
    ResolveTaskFuel 1 Obj.nilWrapper = some Unwrapped.panicked ∧
    ResolveTask (WrapTask Obj.nilWrapper) = Unwrapped.panicked ∧
    ResolveTaskFuel 2 (WrapTask Obj.nilWrapper) = some Unwrapped.panicked := by
  decide

end Converge
